import Mathlib

/-!
# Verification of the chip8-emulator-rs interpreter core

Shallow embedding of `src/emulator.rs`, `src/error.rs` and the keypad query of
`src/io.rs`. Machine integers are modelled as `Nat` with explicit `% 2^w`
where the Rust code wraps; bit shifts and masks are rendered with division and
remainder (`(w >> k) & 0xF` becomes `w / 2^k % 16`). Rust's checked array
indexing (which panics on an out-of-bounds index) is modelled by `Option`:
`none` is a panic, `Except.error` is a returned `Err`. Presentation side
effects (`io.draw`, SDL) have no influence on the core state and are dropped.
-/

namespace Chip8Emu

/-- `Chip8Error` from `src/error.rs` (the `IoError` payload is irrelevant to
the core and carried as a unit). -/
inductive Chip8Error where
  | RomTooLarge (size : Nat)
  | InvalidRegister (reg : Nat)
  | InvalidOpcode (opcode : Nat)
  | StackOverflow
  | StackUnderflow
  | PCOutOfBounds (pc : Nat)
  | IoError
deriving DecidableEq, Repr

/-- The instruction sum type, from the `Opcode` enum in `src/emulator.rs`
(lines 531-567; `src/opcode.rs` duplicates it verbatim). -/
inductive Opcode where
  | Clear                               -- 00E0
  | Return                              -- 00EE
  | Jump (nnn : Nat)                    -- 1NNN
  | Call (nnn : Nat)                    -- 2NNN
  | SkipEqualVal (x nn : Nat)           -- 3XNN
  | SkipNotEqualVal (x nn : Nat)        -- 4XNN
  | SkipEqual (x y : Nat)               -- 5XY0
  | SetVal (x nn : Nat)                 -- 6XNN
  | AddVal (x nn : Nat)                 -- 7XNN
  | Set (x y : Nat)                     -- 8XY0
  | Or (x y : Nat)                      -- 8XY1
  | And (x y : Nat)                     -- 8XY2
  | Xor (x y : Nat)                     -- 8XY3
  | Add (x y : Nat)                     -- 8XY4
  | SubY (x y : Nat)                    -- 8XY5
  | ShiftRight (x : Nat)                -- 8XY6
  | SubX (x y : Nat)                    -- 8XY7
  | ShiftLeft (x : Nat)                 -- 8XYE
  | SkipNotEqual (x y : Nat)            -- 9XY0
  | SetI (nnn : Nat)                    -- ANNN
  | JumpV0 (nnn : Nat)                  -- BNNN
  | Random (x nn : Nat)                 -- CXNN
  | Draw (x y n : Nat)                  -- DXYN
  | SkipKey (x : Nat)                   -- EX9E
  | SkipNotKey (x : Nat)                -- EXA1
  | GetDelay (x : Nat)                  -- FX07
  | WaitKey (x : Nat)                   -- FX0A
  | SetDelay (x : Nat)                  -- FX15
  | SetSound (x : Nat)                  -- FX18
  | AddI (x : Nat)                      -- FX1E
  | SetSprite (x : Nat)                 -- FX29
  | StoreBCD (x : Nat)                  -- FX33
  | StoreRegs (x : Nat)                 -- FX55
  | LoadRegs (x : Nat)                  -- FX65
deriving DecidableEq, Repr

/-- The arm selection of `Chip8::decode` (`src/emulator.rs:208-244`), over the
already-split nibble fields. The Rust `match` on `(first_nibble, x, y, n)`
tries its arms in source order and the first matching pattern wins; that
ordered match is rendered as a first-match if-chain with one `if` per arm,
each condition being exactly that arm's pattern. `w` is only used for the
`InvalidOpcode` payload of the fall-through arm. -/
def decodeFields (w fn x y n nn nnn : Nat) : Except Chip8Error Opcode :=
  if fn = 0x0 ∧ x = 0x0 ∧ y = 0xE ∧ n = 0x0 then .ok .Clear
  else if fn = 0x0 ∧ x = 0x0 ∧ y = 0xE ∧ n = 0xE then .ok .Return
  else if fn = 0x1 then .ok (.Jump nnn)
  else if fn = 0x2 then .ok (.Call nnn)
  else if fn = 0x3 then .ok (.SkipEqualVal x nn)
  else if fn = 0x4 then .ok (.SkipNotEqualVal x nn)
  else if fn = 0x5 ∧ n = 0x0 then .ok (.SkipEqual x y)
  else if fn = 0x6 then .ok (.SetVal x nn)
  else if fn = 0x7 then .ok (.AddVal x nn)
  else if fn = 0x8 ∧ n = 0x0 then .ok (.Set x y)
  else if fn = 0x8 ∧ n = 0x1 then .ok (.Or x y)
  else if fn = 0x8 ∧ n = 0x2 then .ok (.And x y)
  else if fn = 0x8 ∧ n = 0x3 then .ok (.Xor x y)
  else if fn = 0x8 ∧ n = 0x4 then .ok (.Add x y)
  else if fn = 0x8 ∧ n = 0x5 then .ok (.SubY x y)
  else if fn = 0x8 ∧ n = 0x6 then .ok (.ShiftRight x)
  else if fn = 0x8 ∧ n = 0x7 then .ok (.SubX x y)
  else if fn = 0x8 ∧ n = 0xE then .ok (.ShiftLeft x)
  else if fn = 0x9 ∧ n = 0x0 then .ok (.SkipNotEqual x y)
  else if fn = 0xA then .ok (.SetI nnn)
  else if fn = 0xB then .ok (.JumpV0 nnn)
  else if fn = 0xC then .ok (.Random x nn)
  else if fn = 0xD then .ok (.Draw x y n)
  else if fn = 0xE ∧ y = 0x9 ∧ n = 0xE then .ok (.SkipKey x)
  else if fn = 0xE ∧ y = 0xA ∧ n = 0x1 then .ok (.SkipNotKey x)
  else if fn = 0xF ∧ y = 0x0 ∧ n = 0x7 then .ok (.GetDelay x)
  else if fn = 0xF ∧ y = 0x0 ∧ n = 0xA then .ok (.WaitKey x)
  else if fn = 0xF ∧ y = 0x1 ∧ n = 0x5 then .ok (.SetDelay x)
  else if fn = 0xF ∧ y = 0x1 ∧ n = 0x8 then .ok (.SetSound x)
  else if fn = 0xF ∧ y = 0x1 ∧ n = 0xE then .ok (.AddI x)
  else if fn = 0xF ∧ y = 0x2 ∧ n = 0x9 then .ok (.SetSprite x)
  else if fn = 0xF ∧ y = 0x3 ∧ n = 0x3 then .ok (.StoreBCD x)
  else if fn = 0xF ∧ y = 0x5 ∧ n = 0x5 then .ok (.StoreRegs x)
  else if fn = 0xF ∧ y = 0x6 ∧ n = 0x5 then .ok (.LoadRegs x)
  else .error (.InvalidOpcode w)

/-- `Chip8::decode` (`src/emulator.rs:200-245`): split the 16-bit instruction
word into `first_nibble`, `x`, `y`, `n`, `nn`, `nnn` (shifts and masks
rendered as division and remainder) and select the arm. -/
def decode (w : Nat) : Except Chip8Error Opcode :=
  decodeFields w (w / 4096 % 16) (w / 256 % 16) (w / 16 % 16) (w % 16)
    (w % 256) (w % 4096)

/-- How many arm patterns of `decode` a nibble tuple satisfies: one summand
per arm, each condition textually the same as the arm's condition in
`decodeFields`. Counting them independently of the chain is what lets us
state that no instruction word matches two different arms. -/
def matchCountFields (fn x y n : Nat) : Nat :=
  (if fn = 0x0 ∧ x = 0x0 ∧ y = 0xE ∧ n = 0x0 then 1 else 0) +
  (if fn = 0x0 ∧ x = 0x0 ∧ y = 0xE ∧ n = 0xE then 1 else 0) +
  (if fn = 0x1 then 1 else 0) +
  (if fn = 0x2 then 1 else 0) +
  (if fn = 0x3 then 1 else 0) +
  (if fn = 0x4 then 1 else 0) +
  (if fn = 0x5 ∧ n = 0x0 then 1 else 0) +
  (if fn = 0x6 then 1 else 0) +
  (if fn = 0x7 then 1 else 0) +
  (if fn = 0x8 ∧ n = 0x0 then 1 else 0) +
  (if fn = 0x8 ∧ n = 0x1 then 1 else 0) +
  (if fn = 0x8 ∧ n = 0x2 then 1 else 0) +
  (if fn = 0x8 ∧ n = 0x3 then 1 else 0) +
  (if fn = 0x8 ∧ n = 0x4 then 1 else 0) +
  (if fn = 0x8 ∧ n = 0x5 then 1 else 0) +
  (if fn = 0x8 ∧ n = 0x6 then 1 else 0) +
  (if fn = 0x8 ∧ n = 0x7 then 1 else 0) +
  (if fn = 0x8 ∧ n = 0xE then 1 else 0) +
  (if fn = 0x9 ∧ n = 0x0 then 1 else 0) +
  (if fn = 0xA then 1 else 0) +
  (if fn = 0xB then 1 else 0) +
  (if fn = 0xC then 1 else 0) +
  (if fn = 0xD then 1 else 0) +
  (if fn = 0xE ∧ y = 0x9 ∧ n = 0xE then 1 else 0) +
  (if fn = 0xE ∧ y = 0xA ∧ n = 0x1 then 1 else 0) +
  (if fn = 0xF ∧ y = 0x0 ∧ n = 0x7 then 1 else 0) +
  (if fn = 0xF ∧ y = 0x0 ∧ n = 0xA then 1 else 0) +
  (if fn = 0xF ∧ y = 0x1 ∧ n = 0x5 then 1 else 0) +
  (if fn = 0xF ∧ y = 0x1 ∧ n = 0x8 then 1 else 0) +
  (if fn = 0xF ∧ y = 0x1 ∧ n = 0xE then 1 else 0) +
  (if fn = 0xF ∧ y = 0x2 ∧ n = 0x9 then 1 else 0) +
  (if fn = 0xF ∧ y = 0x3 ∧ n = 0x3 then 1 else 0) +
  (if fn = 0xF ∧ y = 0x5 ∧ n = 0x5 then 1 else 0) +
  (if fn = 0xF ∧ y = 0x6 ∧ n = 0x5 then 1 else 0)

/-- How many decode arms an instruction word matches. -/
def matchCount (w : Nat) : Nat :=
  matchCountFields (w / 4096 % 16) (w / 256 % 16) (w / 16 % 16) (w % 16)

/-- `true` on `Except.ok`. -/
def isOkB : Except Chip8Error Opcode → Bool
  | .ok _ => true
  | .error _ => false

/-- Constructor index of an `Opcode`, in source declaration order
(0 = `Clear` … 33 = `LoadRegs`): the code's instruction sum type has 34
variant classes. -/
def ctorIdx : Opcode → Nat
  | .Clear => 0
  | .Return => 1
  | .Jump _ => 2
  | .Call _ => 3
  | .SkipEqualVal _ _ => 4
  | .SkipNotEqualVal _ _ => 5
  | .SkipEqual _ _ => 6
  | .SetVal _ _ => 7
  | .AddVal _ _ => 8
  | .Set _ _ => 9
  | .Or _ _ => 10
  | .And _ _ => 11
  | .Xor _ _ => 12
  | .Add _ _ => 13
  | .SubY _ _ => 14
  | .ShiftRight _ => 15
  | .SubX _ _ => 16
  | .ShiftLeft _ => 17
  | .SkipNotEqual _ _ => 18
  | .SetI _ => 19
  | .JumpV0 _ => 20
  | .Random _ _ => 21
  | .Draw _ _ _ => 22
  | .SkipKey _ => 23
  | .SkipNotKey _ => 24
  | .GetDelay _ => 25
  | .WaitKey _ => 26
  | .SetDelay _ => 27
  | .SetSound _ => 28
  | .AddI _ => 29
  | .SetSprite _ => 30
  | .StoreBCD _ => 31
  | .StoreRegs _ => 32
  | .LoadRegs _ => 33

deriving instance DecidableEq for Except

/-! ## Machine state

`Memory`, `Display` and `Regs` are byte arrays in the Rust code
(`[u8; 4096]`, `[u8; 64*32]`, `[u8; 16]`); they are modelled as total
functions `Nat → Nat` whose meaningful domain is the array's index range,
with every checked (panicking) index operation made explicit through
`Option`. -/

/-- `MEMORY_SIZE`. -/
def MEMORY_SIZE : Nat := 4096
/-- `DISPLAY_WIDTH`. -/
def DISPLAY_WIDTH : Nat := 64
/-- `DISPLAY_HEIGHT`. -/
def DISPLAY_HEIGHT : Nat := 32
/-- `STACK_SIZE`. -/
def STACK_SIZE : Nat := 16
/-- `FONT_OFFSET`. -/
def FONT_OFFSET : Nat := 0x050
/-- `PROGRAM_START`. -/
def PROGRAM_START : Nat := 0x200
/-- `NO_KEY_PRESSED`. -/
def NO_KEY_PRESSED : Int := -2

/-- The 80-byte `FONT` table (`src/emulator.rs:30-47`). -/
def FONT : List Nat :=
  [ 0xF0, 0x90, 0x90, 0x90, 0xF0,
    0x20, 0x60, 0x20, 0x20, 0x70,
    0xF0, 0x10, 0xF0, 0x80, 0xF0,
    0xF0, 0x10, 0xF0, 0x10, 0xF0,
    0x90, 0x90, 0xF0, 0x10, 0x10,
    0xF0, 0x80, 0xF0, 0x10, 0xF0,
    0xF0, 0x80, 0xF0, 0x90, 0xF0,
    0xF0, 0x10, 0x20, 0x40, 0x40,
    0xF0, 0x90, 0xF0, 0x90, 0xF0,
    0xF0, 0x90, 0xF0, 0x10, 0xF0,
    0xF0, 0x90, 0xF0, 0x90, 0x90,
    0xE0, 0x90, 0xE0, 0x90, 0xE0,
    0xF0, 0x80, 0x80, 0x80, 0xF0,
    0xE0, 0x90, 0x90, 0x90, 0xE0,
    0xF0, 0x80, 0xF0, 0x80, 0xF0,
    0xF0, 0x80, 0xF0, 0x80, 0x80 ]

/-- Byte-array memory as a total function; indices ≥ `MEMORY_SIZE` are out of
bounds and only reachable through the checked accessors below. -/
abbrev Mem : Type := Nat → Nat
/-- The 64×32 framebuffer, row-major (`screen_y * DISPLAY_WIDTH + screen_x`). -/
abbrev Display : Type := Nat → Nat
/-- The 16 general registers `V0..VF`. -/
abbrev Regs : Type := Nat → Nat

/-- Checked store `memory[a] = v`: a Rust index panic (out of bounds) is
`none`. -/
def writeMem (m : Mem) (a v : Nat) : Option Mem :=
  if a < MEMORY_SIZE then some (fun b => if b = a then v else m b) else none

/-- Checked load `memory[a]`. -/
def readMem (m : Mem) (a : Nat) : Option Nat :=
  if a < MEMORY_SIZE then some (m a) else none

/-- `copy_from_slice` of `data` into the block starting at `base`. -/
def writeRange (m : Mem) (base : Nat) (data : List Nat) : Mem :=
  fun a => if base ≤ a ∧ a < base + data.length then data.getD (a - base) 0 else m a

/-- `KEY_TO_POSITION` (`src/io.rs:34-36`). -/
def KEY_TO_POSITION : List Nat :=
  [0xD, 0x0, 0x1, 0x2, 0x4, 0x5, 0x6, 0x8, 0x9, 0xA, 0xC, 0xE, 0x3, 0x7, 0xB, 0xF]

/-- The keypad/presentation collaborator (`IO` in `src/io.rs`), reduced to
the two queries the executor consumes: the physical key-down array behind
`check_key_pressed`, and the value `get_key_pressed` would return
(`NO_KEY_PRESSED = -2` when no key event is pending). SDL window state and
the event pump are presentation-only and omitted. -/
structure IOst where
  keysPressed : Nat → Bool
  keyQueryResult : Int

/-- `IO::check_key_pressed` (`src/io.rs:136-142`): keys ≥ 16 are reported as
not pressed. -/
def checkKeyPressed (io : IOst) (key : Nat) : Bool :=
  if key < 16 then io.keysPressed (KEY_TO_POSITION.getD key 0) else false

/-- The `Chip8` struct (`src/emulator.rs:49-70`). `last_timer_update` (a
wall-clock instant) has no influence on any instruction's semantics and is
omitted; `io: Option<IO>` keeps its headless (`None`) possibility. -/
structure Chip8 where
  display : Display
  memory : Mem
  regs : Regs
  stack : List Nat
  pc : Nat
  i : Nat
  currentInstruction : Nat
  acc : Int
  delayTimer : Nat
  soundTimer : Nat
  running : Bool
  paused : Bool
  stepMode : Bool
  shouldStep : Bool
  debugMode : Bool
  ioDev : Option IOst

/-- `Chip8::stack_push` (`src/emulator.rs:490-496`). -/
def stackPush (s : Chip8) (value : Nat) : Except Chip8Error Chip8 :=
  if STACK_SIZE ≤ s.stack.length then .error .StackOverflow
  else .ok { s with stack := s.stack ++ [value] }

/-- `Chip8::stack_pop` (`src/emulator.rs:498-500`): `Vec::pop` takes from the
back. -/
def stackPop (s : Chip8) : Except Chip8Error (Nat × Chip8) :=
  match s.stack.getLast? with
  | none => .error .StackUnderflow
  | some v => .ok (v, { s with stack := s.stack.dropLast })

/-- `Chip8::store_bcd` (`src/emulator.rs:450-454`): three checked stores at
`I`, `I+1`, `I+2`. -/
def storeBCD (s : Chip8) (x : Nat) : Option Chip8 :=
  (writeMem s.memory s.i (s.regs x / 100 % 10)).bind fun m1 =>
  (writeMem m1 (s.i + 1) (s.regs x / 10 % 10)).bind fun m2 =>
  (writeMem m2 (s.i + 2) (s.regs x % 10)).map fun m3 =>
  { s with memory := m3 }

/-- The loop of `Chip8::store_regs` (`src/emulator.rs:456-460`) over an
explicit iteration count: `for i in 0..count { memory[base + i] = f(i) }` as
a fold of checked stores. -/
def storeFold (m : Mem) (base : Nat) (f : Nat → Nat) (count : Nat) :
    Option Mem :=
  (List.range count).foldlM (fun mm j => writeMem mm (base + j) (f j)) m

/-- The loop of `Chip8::load_regs` over an explicit iteration count:
`for i in 0..count { regs[i] = memory[base + i] }` as a fold of checked
loads. -/
def loadFold (m : Mem) (base : Nat) (r : Regs) (count : Nat) : Option Regs :=
  (List.range count).foldlM
    (fun rr j => (readMem m (base + j)).map
      fun v => fun q => if q = j then v else rr q) r

/-- `Chip8::store_regs` (`src/emulator.rs:456-460`):
`for i in 0..=x { memory[I + i] = regs[i] }` — `x + 1` checked stores. -/
def storeRegs (s : Chip8) (x : Nat) : Option Chip8 :=
  (storeFold s.memory s.i s.regs (x + 1)).map fun m => { s with memory := m }

/-- `Chip8::load_regs` (`src/emulator.rs:462-466`):
`for i in 0..=x { regs[i] = memory[I + i] }` — `x + 1` checked loads. -/
def loadRegs (s : Chip8) (x : Nat) : Option Chip8 :=
  (loadFold s.memory s.i s.regs (x + 1)).map fun r => { s with regs := r }

/-! ## Sprite drawing (`Chip8::display`, `src/emulator.rs:502-528`)

The inner loop runs `bit_index` from 7 down to 0 and, after drawing a pixel,
breaks out early when that pixel was in the rightmost column
(`screen_x == DISPLAY_WIDTH - 1`); the outer loop runs `byte_index` from 0 to
`n-1`, reading one sprite byte per row, breaking after a row that touched the
bottom line (`vy + byte_index == DISPLAY_HEIGHT - 1`). The accumulated pair
is `(framebuffer, VF value)`; `(byte >> bit_index) & 1` is rendered as
`byte / 2 ^ bitIndex % 2`. -/

/-- Inner pixel loop of `Chip8::display`: one step draws the pixel for
`bitIndex`, then either stops (right edge or `bitIndex = 0`) or recurses on
`bitIndex - 1`. -/
def drawRowGo (byte vx vy byteIndex : Nat) :
    Display × Nat → Nat → Display × Nat
  | (disp, vf), bitIndex =>
    let bit := byte / 2 ^ bitIndex % 2
    let screenX := (vx + (7 - bitIndex)) % DISPLAY_WIDTH
    let screenY := (vy + byteIndex) % DISPLAY_HEIGHT
    let screenOffset := screenY * DISPLAY_WIDTH + screenX
    let vf' := if bit = 1 ∧ disp screenOffset = 1 then 1 else vf
    let disp' : Display :=
      fun a => if a = screenOffset then disp screenOffset ^^^ bit else disp a
    if screenX = DISPLAY_WIDTH - 1 then (disp', vf')
    else
      match bitIndex with
      | 0 => (disp', vf')
      | k + 1 => drawRowGo byte vx vy byteIndex (disp', vf') k

/-- Outer row loop of `Chip8::display`, with `count` rows left to draw:
reads the sprite byte `memory[I + byteIndex]` (checked — Rust panics past the
end of memory), draws the row, and stops early at the bottom edge. -/
def drawRows (mem : Mem) (i vx vy : Nat) :
    Nat → Nat → Display × Nat → Option (Display × Nat)
  | _, 0, st => some st
  | byteIndex, count + 1, st =>
    (readMem mem (i + byteIndex)).bind fun byte =>
      let st' := drawRowGo byte vx vy byteIndex st 7
      if vy + byteIndex = DISPLAY_HEIGHT - 1 then some st'
      else drawRows mem i vx vy (byteIndex + 1) count st'

/-- `Chip8::display` on a state: `VF` is cleared, the rows are drawn, and the
final collision flag is written back to `VF`. -/
def displayDraw (s : Chip8) (vx vy n : Nat) : Option Chip8 :=
  (drawRows s.memory s.i vx vy 0 n (s.display, 0)).map fun st =>
    { s with display := st.1,
             regs := fun q => if q = 0xF then st.2 else s.regs q }

/-! ## The executor (`Chip8::execute`, `src/emulator.rs:247-448`)

`execute s op rnd` is `Option (Except Chip8Error Chip8)`: `none` is a Rust
panic (an out-of-bounds checked index), `some (.error e)` a returned
`Err(e)`, `some (.ok s')` the mutated state. `rnd` feeds the `rand::rng()`
byte of the `Random` arm. Wrapping `u8`/`u16` arithmetic is `% 256` /
`% 65536`; `io.draw` presentation calls do not touch the core state and are
dropped. -/
def execute (s : Chip8) (op : Opcode) (rnd : Nat) :
    Option (Except Chip8Error Chip8) :=
  match op with
  | .Clear =>
    some (.ok { s with display := fun _ => 0 })
  | .Return =>
    match stackPop s with
    | .error e => some (.error e)
    | .ok (v, s') => some (.ok { s' with pc := v })
  | .Jump addr =>
    some (.ok { s with pc := addr })
  | .Call addr =>
    match stackPush s s.pc with
    | .error e => some (.error e)
    | .ok s' => some (.ok { s' with pc := addr })
  | .SkipEqualVal x nn =>
    some (.ok (if s.regs x = nn then { s with pc := s.pc + 2 } else s))
  | .SkipNotEqualVal x nn =>
    some (.ok (if s.regs x ≠ nn then { s with pc := s.pc + 2 } else s))
  | .SkipEqual x y =>
    some (.ok (if s.regs x = s.regs y then { s with pc := s.pc + 2 } else s))
  | .SetVal x nn =>
    some (.ok { s with regs := fun q => if q = x then nn else s.regs q })
  | .AddVal x nn =>
    some (.ok { s with
      regs := fun q => if q = x then (s.regs x + nn) % 256 else s.regs q })
  | .Set x y =>
    some (.ok { s with
      regs := fun q => if q = x then s.regs y else s.regs q })
  | .Or x y =>
    some (.ok { s with
      regs := fun q => if q = x then s.regs x ||| s.regs y else s.regs q })
  | .And x y =>
    some (.ok { s with
      regs := fun q => if q = x then s.regs x &&& s.regs y else s.regs q })
  | .Xor x y =>
    some (.ok { s with
      regs := fun q => if q = x then s.regs x ^^^ s.regs y else s.regs q })
  | .Add x y =>
    -- overflowing_add: result = (Vx + Vy) mod 256, flag = (Vx + Vy ≥ 256);
    -- `regs[x] = result` happens before `regs[0xF] = overflow as u8`.
    let result := (s.regs x + s.regs y) % 256
    let overflow := if 256 ≤ s.regs x + s.regs y then 1 else 0
    let regs1 : Regs := fun q => if q = x then result else s.regs q
    some (.ok { s with
      regs := fun q => if q = 0xF then overflow else regs1 q })
  | .SubY x y =>
    -- overflowing_sub: result wraps mod 256, flag `!underflow` = (Vx ≥ Vy).
    let result := (s.regs x + 256 - s.regs y % 256) % 256
    let noBorrow := if s.regs y ≤ s.regs x then 1 else 0
    let regs1 : Regs := fun q => if q = x then result else s.regs q
    some (.ok { s with
      regs := fun q => if q = 0xF then noBorrow else regs1 q })
  | .ShiftRight x =>
    let acc := s.regs x
    let regs1 : Regs := fun q => if q = x then s.regs x / 2 else s.regs q
    some (.ok { s with
      regs := fun q => if q = 0xF then acc % 2 else regs1 q })
  | .SubX x y =>
    let result := (s.regs y + 256 - s.regs x % 256) % 256
    let noBorrow := if s.regs x ≤ s.regs y then 1 else 0
    let regs1 : Regs := fun q => if q = x then result else s.regs q
    some (.ok { s with
      regs := fun q => if q = 0xF then noBorrow else regs1 q })
  | .ShiftLeft x =>
    let acc := s.regs x
    let regs1 : Regs := fun q => if q = x then s.regs x * 2 % 256 else s.regs q
    some (.ok { s with
      regs := fun q => if q = 0xF then acc / 128 % 2 else regs1 q })
  | .SkipNotEqual x y =>
    some (.ok (if s.regs x ≠ s.regs y then { s with pc := s.pc + 2 } else s))
  | .SetI addr =>
    some (.ok { s with i := addr })
  | .JumpV0 nnn =>
    -- `self.pc = (self.regs[0x0] + (nnn as u8)) as u16`: the 12-bit literal
    -- is truncated to 8 bits and added in u8 arithmetic.
    some (.ok { s with pc := (s.regs 0x0 + nnn % 256) % 256 })
  | .Random x nn =>
    some (.ok { s with
      regs := fun q => if q = x then rnd % 256 &&& nn else s.regs q })
  | .Draw x y n =>
    let vx := s.regs x % DISPLAY_WIDTH
    let vy := s.regs y % DISPLAY_HEIGHT
    (displayDraw s vx vy n).map .ok
  | .SkipKey x =>
    -- the guard tests the register index `x`, not the value in `Vx`, and
    -- reports `StackUnderflow` if it ever fired.
    if 0xF < x then some (.error .StackUnderflow)
    else
      match s.ioDev with
      | some io =>
        some (.ok (if checkKeyPressed io (s.regs x)
          then { s with pc := s.pc + 2 } else s))
      | none => some (.ok s)
  | .SkipNotKey x =>
    if 0xF < x then some (.error .StackOverflow)
    else
      match s.ioDev with
      | some io =>
        some (.ok (if checkKeyPressed io (s.regs x) = false
          then { s with pc := s.pc + 2 } else s))
      | none => some (.ok s)
  | .GetDelay x =>
    some (.ok { s with
      regs := fun q => if q = x then s.delayTimer else s.regs q })
  | .WaitKey x =>
    match s.ioDev with
    | some io =>
      if io.keyQueryResult = NO_KEY_PRESSED then
        some (.ok { s with pc := s.pc - 2 })
      else
        some (.ok { s with
          regs := fun q => if q = x
            then ((io.keyQueryResult % 256).toNat) else s.regs q })
    | none => some (.ok s)
  | .SetDelay x =>
    some (.ok { s with delayTimer := s.regs x })
  | .SetSound x =>
    some (.ok { s with soundTimer := s.regs x })
  | .AddI x =>
    some (.ok { s with i := (s.i + s.regs x) % 65536 })
  | .SetSprite x =>
    -- `let value = (self.regs[(x as usize) & 0xF] * 5) as u16;
    --  self.i = MEMORY_SIZE as u16 + value;` — the u8 multiply wraps and the
    -- base is MEMORY_SIZE, not FONT_OFFSET.
    let value := s.regs (x % 16) * 5 % 256
    some (.ok { s with i := MEMORY_SIZE + value })
  | .StoreBCD x =>
    (storeBCD s x).map .ok
  | .StoreRegs x =>
    (storeRegs s x).map .ok
  | .LoadRegs x =>
    (loadRegs s x).map .ok

/-- `Chip8::new` (`src/emulator.rs:73-102`) with the ROM bytes already read
from disk: zeroed memory, font copied to `FONT_OFFSET`, size check, program
copied to `PROGRAM_START`, every other component zeroed/defaulted. The SDL
back end is abstracted to a fresh `IOst` with no keys down and no pending
key. -/
def newChip8 (rom : List Nat) (debug : Bool) : Except Chip8Error Chip8 :=
  let memory0 : Mem := fun _ => 0
  let memory1 := writeRange memory0 FONT_OFFSET FONT
  if MEMORY_SIZE < rom.length + PROGRAM_START then
    .error (.RomTooLarge rom.length)
  else
    .ok { display := fun _ => 0
          memory := writeRange memory1 PROGRAM_START rom
          regs := fun _ => 0
          stack := []
          delayTimer := 0
          soundTimer := 0
          running := true
          debugMode := debug
          paused := debug
          stepMode := false
          shouldStep := false
          pc := 0x200
          i := 0x0
          acc := 0
          currentInstruction := 0x0000
          ioDev := some { keysPressed := fun _ => false,
                          keyQueryResult := NO_KEY_PRESSED } }

/-- `Chip8::reset` (`src/emulator.rs:165-184`): the fields the method assigns,
and only those — `memory` and `stack` are not touched. The trailing
`self.draw()` presentation call is dropped. -/
def reset (s : Chip8) : Chip8 :=
  { s with
    display := fun _ => 0
    regs := fun _ => 0
    pc := 0x200
    i := 0x0
    acc := 0
    currentInstruction := 0x0000
    delayTimer := 0
    soundTimer := 0
    running := true
    paused := s.debugMode
    stepMode := false
    shouldStep := false }

/-! ## Helpers for stating the claims -/

/-- A headless machine state with everything zeroed: the `Chip8` the unit
tests build (`new_headless_chip8`, `src/emulator.rs:573-596`, with empty
memory instead of the font image where a claim does not need the font). -/
def zeroChip8 : Chip8 :=
  { display := fun _ => 0
    memory := fun _ => 0
    regs := fun _ => 0
    stack := []
    pc := 0x200
    i := 0
    currentInstruction := 0
    acc := 0
    delayTimer := 0
    soundTimer := 0
    running := true
    paused := false
    stepMode := false
    shouldStep := false
    debugMode := false
    ioDev := none }

/-- Sequencing of two instruction outcomes: run `f` on the state only when
the first outcome was a normal `Ok` state (a panic or an `Err` propagates). -/
def chainOkOpt (r : Option (Except Chip8Error Chip8))
    (f : Chip8 → Option (Except Chip8Error Chip8)) :
    Option (Except Chip8Error Chip8) :=
  r.bind fun e =>
    match e with
    | .ok s => f s
    | .error err => some (.error err)

/-- The instructions whose executor arm writes to `memory`: exactly
`StoreBCD` (FX33) and `StoreRegs` (FX55). -/
def writesMemoryB : Opcode → Bool
  | .StoreBCD _ => true
  | .StoreRegs _ => true
  | _ => false

/-- Bit `t` (counted from the left, `t = 0` is the most significant bit) of a
sprite byte: `(byte >> (7 - t)) & 1`. -/
def spriteBit (byte t : Nat) : Nat := byte / 2 ^ (7 - t) % 2

/-- The framebuffer after one sprite row is drawn: cells `row*64 + u` through
`row*64 + u + cnt - 1` are XORed with the corresponding sprite bits, in
`drawRowGo`'s indexing (at cell offset `d` the bit index is `b - d`). -/
def rowPatch (disp : Display) (row u cnt b byte : Nat) : Display :=
  fun a =>
    if row * DISPLAY_WIDTH + u ≤ a ∧ a < row * DISPLAY_WIDTH + u + cnt then
      disp a ^^^ (byte / 2 ^ (b - (a - (row * DISPLAY_WIDTH + u))) % 2)
    else disp a

/-- A collision inside one sprite row against the framebuffer `disp`. -/
def rowHit (disp : Display) (row u cnt b byte : Nat) : Prop :=
  ∃ t, t < cnt ∧ byte / 2 ^ (b - t) % 2 = 1 ∧
    disp (row * DISPLAY_WIDTH + u + t) = 1

/-- The framebuffer after a whole sprite draw starting at row `vy +
byteIndex` with `R` rows: the drawn window (clipped at the right and bottom
edges) is XORed with the sprite bits read from `mem` at `i`. -/
def drawPatch (mem : Mem) (i : Nat) (disp : Display)
    (vx vy byteIndex R : Nat) : Display :=
  fun a =>
    if vy + byteIndex ≤ a / DISPLAY_WIDTH ∧
        a / DISPLAY_WIDTH < vy + byteIndex + R ∧
        vx ≤ a % DISPLAY_WIDTH ∧
        a % DISPLAY_WIDTH < vx + min 8 (DISPLAY_WIDTH - vx) then
      disp a ^^^ spriteBit (mem (i + (a / DISPLAY_WIDTH - vy)))
        (a % DISPLAY_WIDTH - vx)
    else disp a

/-- A collision anywhere in the drawn sprite window against the pre-draw
framebuffer `disp`: some drawn sprite bit is 1 on a cell that already
holds 1. -/
def drawHit (mem : Mem) (i : Nat) (disp : Display)
    (vx vy byteIndex R : Nat) : Prop :=
  ∃ j, j < R ∧ ∃ t, t < min 8 (DISPLAY_WIDTH - vx) ∧
    spriteBit (mem (i + byteIndex + j)) t = 1 ∧
    disp ((vy + byteIndex + j) * DISPLAY_WIDTH + (vx + t)) = 1

instance (disp : Display) (row u cnt b byte : Nat) :
    Decidable (rowHit disp row u cnt b byte) := by
  unfold rowHit
  infer_instance

instance (mem : Mem) (i : Nat) (disp : Display) (vx vy byteIndex R : Nat) :
    Decidable (drawHit mem i disp vx vy byteIndex R) := by
  unfold drawHit
  infer_instance

/-! ## Probe states and witness data used by the claim theorems -/

/-- The machine state used to exercise EX9E/EXA1 with `V0 = 0x10 > 0xF`:
an attached keypad with no key down. -/
def keyProbeChip8 : Chip8 :=
  { zeroChip8 with
    regs := fun q => if q = 0 then 0x10 else 0
    ioDev := some { keysPressed := fun _ => false,
                    keyQueryResult := NO_KEY_PRESSED } }

/-- The state after a successful FX55: the register bytes are copied into
memory at `I`; nothing else changes. -/
def storedState (s : Chip8) (x : Nat) : Chip8 :=
  { s with memory := fun a =>
      if s.i ≤ a ∧ a < s.i + (x + 1) then s.regs (a - s.i) else s.memory a }

/-- The state after a successful FX65 on `storedState`: registers `0..x`
reloaded from the scratch range. -/
def reloadedState (s : Chip8) (x : Nat) : Chip8 :=
  { storedState s x with regs := fun q =>
      if q < x + 1 then (storedState s x).memory (s.i + q) else s.regs q }

/-- C8 witness state: `V0 = 9`, `V1 = 48`, scratch `I = 0x300`. -/
def roundtripProbe : Chip8 :=
  { zeroChip8 with
    regs := fun q => if q = 0 then 9 else if q = 1 then 48 else 0
    i := 0x300 }

/-- One instruction word per decode arm, in arm order. -/
def armWitnessWords : List Nat :=
  [0x00E0, 0x00EE, 0x1123, 0x2123, 0x3123, 0x4123, 0x5120, 0x6123, 0x7123,
   0x8120, 0x8121, 0x8122, 0x8123, 0x8124, 0x8125, 0x8126, 0x8127, 0x812E,
   0x9120, 0xA123, 0xB123, 0xC123, 0xD123, 0xE19E, 0xE1A1, 0xF107, 0xF10A,
   0xF115, 0xF118, 0xF11E, 0xF129, 0xF133, 0xF155, 0xF165]

/-- A machine whose sprite byte at `I = 0` is `0x01` (nonzero) and whose
`V0` is 63: a DXYN draw through `V0` starts at the right screen edge, so
the pixel loop breaks after the (unset) top bit and the single set bit of
the sprite is clipped away. -/
def c7state : Chip8 :=
  { zeroChip8 with
    memory := fun a => if a = 0 then 1 else 0
    regs := fun q => if q = 0 then 63 else 0 }

/-- The collision flag of a successful executor outcome. -/
def exceptVF : Except Chip8Error Chip8 → Option Nat
  | .ok s => some (s.regs 0xF)
  | .error _ => none

/-- The post-load machine for the empty program: `newChip8 [] false`
unwrapped. -/
def c3init : Chip8 :=
  match newChip8 [] false with
  | .ok s0 => s0
  | .error _ => zeroChip8

/-- A machine mid-run: program counter, index register, a register, both
timers and the call stack all differ from their post-load values. -/
def c3probe : Chip8 :=
  { c3init with
    stack := [0x300, 0x234]
    pc := 0x250
    i := 0x123
    regs := fun q => if q = 2 then 9 else 0
    delayTimer := 3
    soundTimer := 1 }

/-! ## Decode arm exclusivity -/

/-- Arm exclusivity over the nibble fields: a tuple satisfies at most one arm
condition, the chain succeeds exactly when one condition holds, and falls
through to `InvalidOpcode` exactly when none holds. Proved by walking the 34
arms in order: if an arm's condition holds, substituting its equalities makes
every other arm's condition false. -/
lemma decodeFields_exclusive (w fn x y n nn nnn : Nat) :
    matchCountFields fn x y n ≤ 1 ∧
    (isOkB (decodeFields w fn x y n nn nnn) = true ↔
      matchCountFields fn x y n = 1) ∧
    (decodeFields w fn x y n nn nnn = .error (.InvalidOpcode w) ↔
      matchCountFields fn x y n = 0) := by
  by_cases h1 : fn = 0x0 ∧ x = 0x0 ∧ y = 0xE ∧ n = 0x0
  · obtain ⟨rfl, rfl, rfl, rfl⟩ := h1
    simp [decodeFields, matchCountFields, isOkB]
  by_cases h2 : fn = 0x0 ∧ x = 0x0 ∧ y = 0xE ∧ n = 0xE
  · obtain ⟨rfl, rfl, rfl, rfl⟩ := h2
    simp [decodeFields, matchCountFields, isOkB]
  by_cases h3 : fn = 0x1
  · subst h3; simp [decodeFields, matchCountFields, isOkB]
  by_cases h4 : fn = 0x2
  · subst h4; simp [decodeFields, matchCountFields, isOkB]
  by_cases h5 : fn = 0x3
  · subst h5; simp [decodeFields, matchCountFields, isOkB]
  by_cases h6 : fn = 0x4
  · subst h6; simp [decodeFields, matchCountFields, isOkB]
  by_cases h7 : fn = 0x5 ∧ n = 0x0
  · obtain ⟨rfl, rfl⟩ := h7
    simp [decodeFields, matchCountFields, isOkB]
  by_cases h8 : fn = 0x6
  · subst h8; simp [decodeFields, matchCountFields, isOkB]
  by_cases h9 : fn = 0x7
  · subst h9; simp [decodeFields, matchCountFields, isOkB]
  by_cases h10 : fn = 0x8 ∧ n = 0x0
  · obtain ⟨rfl, rfl⟩ := h10
    simp [decodeFields, matchCountFields, isOkB]
  by_cases h11 : fn = 0x8 ∧ n = 0x1
  · obtain ⟨rfl, rfl⟩ := h11
    simp [decodeFields, matchCountFields, isOkB]
  by_cases h12 : fn = 0x8 ∧ n = 0x2
  · obtain ⟨rfl, rfl⟩ := h12
    simp [decodeFields, matchCountFields, isOkB]
  by_cases h13 : fn = 0x8 ∧ n = 0x3
  · obtain ⟨rfl, rfl⟩ := h13
    simp [decodeFields, matchCountFields, isOkB]
  by_cases h14 : fn = 0x8 ∧ n = 0x4
  · obtain ⟨rfl, rfl⟩ := h14
    simp [decodeFields, matchCountFields, isOkB]
  by_cases h15 : fn = 0x8 ∧ n = 0x5
  · obtain ⟨rfl, rfl⟩ := h15
    simp [decodeFields, matchCountFields, isOkB]
  by_cases h16 : fn = 0x8 ∧ n = 0x6
  · obtain ⟨rfl, rfl⟩ := h16
    simp [decodeFields, matchCountFields, isOkB]
  by_cases h17 : fn = 0x8 ∧ n = 0x7
  · obtain ⟨rfl, rfl⟩ := h17
    simp [decodeFields, matchCountFields, isOkB]
  by_cases h18 : fn = 0x8 ∧ n = 0xE
  · obtain ⟨rfl, rfl⟩ := h18
    simp [decodeFields, matchCountFields, isOkB]
  by_cases h19 : fn = 0x9 ∧ n = 0x0
  · obtain ⟨rfl, rfl⟩ := h19
    simp [decodeFields, matchCountFields, isOkB]
  by_cases h20 : fn = 0xA
  · subst h20; simp [decodeFields, matchCountFields, isOkB]
  by_cases h21 : fn = 0xB
  · subst h21; simp [decodeFields, matchCountFields, isOkB]
  by_cases h22 : fn = 0xC
  · subst h22; simp [decodeFields, matchCountFields, isOkB]
  by_cases h23 : fn = 0xD
  · subst h23; simp [decodeFields, matchCountFields, isOkB]
  by_cases h24 : fn = 0xE ∧ y = 0x9 ∧ n = 0xE
  · obtain ⟨rfl, rfl, rfl⟩ := h24
    simp [decodeFields, matchCountFields, isOkB]
  by_cases h25 : fn = 0xE ∧ y = 0xA ∧ n = 0x1
  · obtain ⟨rfl, rfl, rfl⟩ := h25
    simp [decodeFields, matchCountFields, isOkB]
  by_cases h26 : fn = 0xF ∧ y = 0x0 ∧ n = 0x7
  · obtain ⟨rfl, rfl, rfl⟩ := h26
    simp [decodeFields, matchCountFields, isOkB]
  by_cases h27 : fn = 0xF ∧ y = 0x0 ∧ n = 0xA
  · obtain ⟨rfl, rfl, rfl⟩ := h27
    simp [decodeFields, matchCountFields, isOkB]
  by_cases h28 : fn = 0xF ∧ y = 0x1 ∧ n = 0x5
  · obtain ⟨rfl, rfl, rfl⟩ := h28
    simp [decodeFields, matchCountFields, isOkB]
  by_cases h29 : fn = 0xF ∧ y = 0x1 ∧ n = 0x8
  · obtain ⟨rfl, rfl, rfl⟩ := h29
    simp [decodeFields, matchCountFields, isOkB]
  by_cases h30 : fn = 0xF ∧ y = 0x1 ∧ n = 0xE
  · obtain ⟨rfl, rfl, rfl⟩ := h30
    simp [decodeFields, matchCountFields, isOkB]
  by_cases h31 : fn = 0xF ∧ y = 0x2 ∧ n = 0x9
  · obtain ⟨rfl, rfl, rfl⟩ := h31
    simp [decodeFields, matchCountFields, isOkB]
  by_cases h32 : fn = 0xF ∧ y = 0x3 ∧ n = 0x3
  · obtain ⟨rfl, rfl, rfl⟩ := h32
    simp [decodeFields, matchCountFields, isOkB]
  by_cases h33 : fn = 0xF ∧ y = 0x5 ∧ n = 0x5
  · obtain ⟨rfl, rfl, rfl⟩ := h33
    simp [decodeFields, matchCountFields, isOkB]
  by_cases h34 : fn = 0xF ∧ y = 0x6 ∧ n = 0x5
  · obtain ⟨rfl, rfl, rfl⟩ := h34
    simp [decodeFields, matchCountFields, isOkB]
  simp [decodeFields, matchCountFields, isOkB, h1, h2, h3, h4, h5, h6, h7,
    h8, h9, h10, h11, h12, h13, h14, h15, h16, h17, h18, h19, h20, h21, h22,
    h23, h24, h25, h26, h27, h28, h29, h30, h31, h32, h33, h34]

/-! ## C1 — sprite-address instruction (FX29) -/

/-- C1: executing FX29 with `Vx = 0` sets `I = 4096` (`MEMORY_SIZE + 5*Vx`),
which is not the font glyph address `0x050 + 5 * (Vx & 0xF) = 0x050` the
claim requires; the resulting `I` lies past the end of the 4096-byte memory
and outside the font region 0x050–0x09F. -/
theorem setSprite_sets_i_past_memory :
    (execute zeroChip8 (.SetSprite 0) 0).map (Except.map Chip8.i)
        = some (.ok 4096) ∧
    4096 ≠ FONT_OFFSET + 5 * (zeroChip8.regs 0 % 16) ∧
    MEMORY_SIZE ≤ 4096 := by
  refine ⟨rfl, by decide, by decide⟩

/-! ## C2 — jump-with-v0-offset (BNNN) -/

/-- C2: executing BNNN with `V0 = 0x10`, `nnn = 0x234` sets `PC = 0x44`
(the code adds only the low byte of `nnn`, in 8-bit arithmetic), not the
`(V0 + nnn) mod 2^16 = 0x244` the claim requires. -/
theorem jumpV0_truncates_nnn :
    (execute { zeroChip8 with
        regs := fun q => if q = 0 then 0x10 else 0 } (.JumpV0 0x234) 0).map
      (Except.map Chip8.pc) = some (.ok 0x44) ∧
    (0x44 : Nat) ≠ (0x10 + 0x234) % 65536 := by
  refine ⟨rfl, by decide⟩

/-! ## C4 — skip-if-key instructions (EX9E / EXA1) -/

/-- C4: executing EX9E with `V0 = 0x10` does not fail with `InvalidRegister`
(or at all): the out-of-range key value is handed to the keypad query, which
reports it as not pressed, so EX9E returns `Ok` without skipping and EXA1
returns `Ok` and skips. -/
theorem skipKey_no_invalid_register_check :
    execute keyProbeChip8 (.SkipKey 0) 0 = some (.ok keyProbeChip8) ∧
    some (.ok keyProbeChip8)
      ≠ some ((Except.error (.InvalidRegister 0x10)) :
          Except Chip8Error Chip8) ∧
    (execute keyProbeChip8 (.SkipNotKey 0) 0).map (Except.map Chip8.pc)
      = some (.ok 0x202) := by
  refine ⟨rfl, by simp, rfl⟩

/-! ## C6 — add with carry flag (8XY4) -/

/-- C6: executing 8XY4 writes `(Vx + Vy) mod 256` to `Vx` and then writes the
carry flag (1 iff `Vx + Vy ≥ 256`) to `VF`; the flag write is last, so for
`x = 0xF` the flag value survives, not the sum. The single register-file
update formula (`VF` branch tested before the `x` branch) captures the write
order. -/
theorem add_carry_flag_semantics (s : Chip8) (x y rnd : Nat) :
    ∃ s', execute s (.Add x y) rnd = some (.ok s') ∧
      s'.regs = (fun q =>
        if q = 0xF then (if 256 ≤ s.regs x + s.regs y then 1 else 0)
        else if q = x then (s.regs x + s.regs y) % 256
        else s.regs q) ∧
      (x ≠ 0xF → s'.regs x = (s.regs x + s.regs y) % 256) ∧
      s'.regs 0xF = (if 256 ≤ s.regs x + s.regs y then 1 else 0) ∧
      s'.display = s.display ∧ s'.memory = s.memory ∧ s'.pc = s.pc ∧
      s'.i = s.i ∧ s'.stack = s.stack := by
  refine ⟨_, rfl, rfl, ?_, ?_, rfl, rfl, rfl, rfl, rfl⟩
  · intro hx
    simp [hx]
  · simp

/-! ## C3 — reset transition -/

/-- C3 counterexample: from a freshly loaded machine, execute `Call 0x300`
(pushing the return address `0x200`) and then reset: the stack still holds
`[0x200]`, not the empty stack of the post-load initial state. -/
theorem reset_does_not_clear_stack :
    (newChip8 [] false).map (fun s0 =>
      (execute s0 (.Call 0x300) 0).map
        (Except.map fun s1 => (reset s1).stack))
      = .ok (some (.ok [0x200])) ∧
    [(0x200 : Nat)] ≠ ([] : List Nat) := by
  refine ⟨rfl, by decide⟩

/-- C3 (amended): `reset` returns every component except the call stack to
its post-load initial value — registers, timers, framebuffer, `PC`, `I`,
run-state flags — and leaves `memory` exactly as it was before the reset;
the call stack is also left exactly as it was (it is not emptied). -/
theorem reset_restores_all_but_stack (rom : List Nat) (debug : Bool)
    (s0 s : Chip8) (h0 : newChip8 rom debug = .ok s0)
    (hdbg : s.debugMode = debug) :
    reset s = { s0 with memory := s.memory, stack := s.stack,
                        ioDev := s.ioDev } := by
  subst hdbg
  rw [newChip8] at h0
  split at h0
  · exact absurd h0 (by simp)
  · injection h0 with h0
    subst h0
    rfl

/-! ## Block-transfer loop lemmas -/

lemma storeFold_zero (m : Mem) (base : Nat) (f : Nat → Nat) :
    storeFold m base f 0 = some m := rfl

lemma storeFold_succ (m : Mem) (base : Nat) (f : Nat → Nat) (k : Nat) :
    storeFold m base f (k + 1) =
      (storeFold m base f k).bind fun mm => writeMem mm (base + k) (f k) := by
  unfold storeFold
  rw [List.range_succ, List.foldlM_append]
  simp

/-- The memory produced by a successful block store: the range
`[base, base + count)` holds the stored bytes, everything else is
untouched. -/
lemma storeFold_eq (m : Mem) (base : Nat) (f : Nat → Nat) :
    ∀ count, base + count ≤ MEMORY_SIZE →
      storeFold m base f count =
        some (fun a => if base ≤ a ∧ a < base + count then f (a - base)
          else m a) := by
  intro count
  induction count with
  | zero =>
    intro _
    rw [storeFold_zero]
    congr 1
    funext a
    rw [if_neg (by omega)]
  | succ k ih =>
    intro hb
    rw [storeFold_succ, ih (by omega), Option.some_bind, writeMem,
      if_pos (show base + k < MEMORY_SIZE by omega)]
    congr 1
    funext a
    by_cases hak : a = base + k
    · subst hak
      rw [if_pos rfl, if_pos (by omega)]
      congr 1
      omega
    · rw [if_neg hak]
      by_cases hin : base ≤ a ∧ a < base + k
      · rw [if_pos hin, if_pos (by omega)]
      · rw [if_neg hin, if_neg (by omega)]

/-- A block store of at least one byte whose range leaves memory panics. -/
lemma storeFold_none (m : Mem) (base : Nat) (f : Nat → Nat) :
    ∀ count, MEMORY_SIZE < base + count → count ≠ 0 →
      storeFold m base f count = none := by
  intro count
  induction count with
  | zero => intro _ h; exact absurd rfl h
  | succ k ih =>
    intro hover _
    rw [storeFold_succ]
    rcases Nat.eq_zero_or_pos k with hk0 | hk0
    · subst hk0
      rw [storeFold_zero, Option.some_bind, writeMem, if_neg (by omega)]
    · by_cases hk : base + k ≤ MEMORY_SIZE
      · rw [storeFold_eq m base f k hk, Option.some_bind, writeMem,
          if_neg (by omega)]
      · rw [ih (by omega) (by omega), Option.none_bind]

/-- A block store succeeds exactly when the whole target range is inside
memory. -/
lemma storeFold_isSome (m : Mem) (base : Nat) (f : Nat → Nat) (count : Nat) :
    (storeFold m base f count).isSome = true ↔
      (count = 0 ∨ base + count ≤ MEMORY_SIZE) := by
  by_cases hb : base + count ≤ MEMORY_SIZE
  · rw [storeFold_eq m base f count hb, Option.isSome_some]
    simp [hb]
  · rcases Nat.eq_zero_or_pos count with hc | hc
    · subst hc
      rw [storeFold_zero, Option.isSome_some]
      simp
    · rw [storeFold_none m base f count (by omega) (by omega),
        Option.isSome_none]
      simp only [Bool.false_eq_true, false_iff]
      omega

lemma loadFold_zero (m : Mem) (base : Nat) (r : Regs) :
    loadFold m base r 0 = some r := rfl

lemma loadFold_succ (m : Mem) (base : Nat) (r : Regs) (k : Nat) :
    loadFold m base r (k + 1) =
      (loadFold m base r k).bind fun rr =>
        (readMem m (base + k)).map fun v q => if q = k then v else rr q := by
  unfold loadFold
  rw [List.range_succ, List.foldlM_append]
  simp

/-- The register file produced by a successful block load: registers
`0..count-1` hold the loaded bytes, everything else is untouched. -/
lemma loadFold_eq (m : Mem) (base : Nat) (r : Regs) :
    ∀ count, base + count ≤ MEMORY_SIZE →
      loadFold m base r count =
        some (fun q => if q < count then m (base + q) else r q) := by
  intro count
  induction count with
  | zero =>
    intro _
    rw [loadFold_zero]
    congr 1
  | succ k ih =>
    intro hb
    rw [loadFold_succ, ih (by omega), Option.some_bind, readMem,
      if_pos (show base + k < MEMORY_SIZE by omega), Option.map_some']
    congr 1
    funext q
    by_cases hqk : q = k
    · subst hqk
      simp
    · by_cases hin : q < k
      · simp [hqk, hin, show q < k + 1 from by omega]
      · simp [hqk, hin, show ¬(q < k + 1) from by omega]

/-- A block load of at least one byte whose range leaves memory panics. -/
lemma loadFold_none (m : Mem) (base : Nat) (r : Regs) :
    ∀ count, MEMORY_SIZE < base + count → count ≠ 0 →
      loadFold m base r count = none := by
  intro count
  induction count with
  | zero => intro _ h; exact absurd rfl h
  | succ k ih =>
    intro hover _
    rw [loadFold_succ]
    rcases Nat.eq_zero_or_pos k with hk0 | hk0
    · subst hk0
      rw [loadFold_zero, Option.some_bind, readMem, if_neg (by omega)]
      rfl
    · by_cases hk : base + k ≤ MEMORY_SIZE
      · rw [loadFold_eq m base r k hk, Option.some_bind, readMem,
          if_neg (by omega)]
        rfl
      · rw [ih (by omega) (by omega), Option.none_bind]

/-- A block load succeeds exactly when the whole source range is inside
memory. -/
lemma loadFold_isSome (m : Mem) (base : Nat) (r : Regs) (count : Nat) :
    (loadFold m base r count).isSome = true ↔
      (count = 0 ∨ base + count ≤ MEMORY_SIZE) := by
  by_cases hb : base + count ≤ MEMORY_SIZE
  · rw [loadFold_eq m base r count hb, Option.isSome_some]
    simp [hb]
  · rcases Nat.eq_zero_or_pos count with hc | hc
    · subst hc
      rw [loadFold_zero, Option.isSome_some]
      simp
    · rw [loadFold_none m base r count (by omega) (by omega),
        Option.isSome_none]
      simp only [Bool.false_eq_true, false_iff]
      omega

/-! ## C10 — unguarded block-transfer memory access -/

/-- C10: the block transfers perform no bounds check on `I`: `store_bcd`
(`memory[I..I+2]`) succeeds exactly when `I + 2 < 4096`, and
`store_regs`/`load_regs` (`memory[I..I+x]`) exactly when `I + x < 4096`; on
every state violating the precondition the access indexes past the end of
memory (a panic, modelled `none`) — these instructions never return a
`Chip8Error`. -/
theorem block_transfers_unchecked (s : Chip8) (x rnd : Nat) :
    ((storeBCD s x).isSome = true ↔ s.i + 2 < MEMORY_SIZE) ∧
    ((storeRegs s x).isSome = true ↔ s.i + x < MEMORY_SIZE) ∧
    ((loadRegs s x).isSome = true ↔ s.i + x < MEMORY_SIZE) ∧
    (execute s (.StoreBCD x) rnd = none ∨
      ∃ s', execute s (.StoreBCD x) rnd = some (.ok s')) ∧
    (execute s (.StoreRegs x) rnd = none ∨
      ∃ s', execute s (.StoreRegs x) rnd = some (.ok s')) ∧
    (execute s (.LoadRegs x) rnd = none ∨
      ∃ s', execute s (.LoadRegs x) rnd = some (.ok s')) := by
  refine ⟨?_, ?_, ?_, ?_, ?_, ?_⟩
  · simp only [storeBCD, writeMem]
    split_ifs <;> simp <;> omega
  · have hiff := storeFold_isSome s.memory s.i s.regs (x + 1)
    rw [storeRegs]
    rcases hsf : storeFold s.memory s.i s.regs (x + 1) with _ | mm <;>
        rw [hsf] at hiff <;> simp at hiff ⊢ <;> omega
  · have hiff := loadFold_isSome s.memory s.i s.regs (x + 1)
    rw [loadRegs]
    rcases hlf : loadFold s.memory s.i s.regs (x + 1) with _ | rr <;>
        rw [hlf] at hiff <;> simp at hiff ⊢ <;> omega
  · rcases h : storeBCD s x with _ | s' <;> simp [execute, h]
  · rcases h : storeRegs s x with _ | s' <;> simp [execute, h]
  · rcases h : loadRegs s x with _ | s' <;> simp [execute, h]

/-! ## C8 — store-registers / load-registers round trip -/

/-- C8: for `x ≤ 0xF` and an in-bounds scratch range (`I + x < 4096`),
executing FX55 and then FX65 succeeds, restores the whole register file
(in particular `V0..Vx`), and neither instruction modifies `I`. -/
theorem store_load_regs_roundtrip (s : Chip8) (x rnd rnd2 : Nat)
    (hx : x ≤ 0xF) (hb : s.i + x < MEMORY_SIZE) :
    ∃ s1 s2, execute s (.StoreRegs x) rnd = some (.ok s1) ∧
      execute s1 (.LoadRegs x) rnd2 = some (.ok s2) ∧
      s1.i = s.i ∧ s2.i = s.i ∧ s2.regs = s.regs := by
  refine ⟨storedState s x, reloadedState s x, ?_, ?_, rfl, rfl, ?_⟩
  · show (storeRegs s x).map Except.ok = _
    rw [storeRegs, storeFold_eq s.memory s.i s.regs (x + 1) (by omega)]
    rfl
  · show (loadRegs (storedState s x) x).map Except.ok = _
    have hload : loadFold (storedState s x).memory (storedState s x).i
        (storedState s x).regs (x + 1) =
        some (fun q => if q < x + 1 then (storedState s x).memory (s.i + q)
          else s.regs q) :=
      loadFold_eq (storedState s x).memory s.i s.regs (x + 1) (by omega)
    rw [loadRegs, hload]
    rfl
  · show (fun q => if q < x + 1 then (storedState s x).memory (s.i + q)
      else s.regs q) = s.regs
    funext q
    by_cases hq : q < x + 1
    · rw [if_pos hq]
      show (if s.i ≤ s.i + q ∧ s.i + q < s.i + (x + 1)
        then s.regs (s.i + q - s.i) else s.memory (s.i + q)) = s.regs q
      rw [if_pos (by omega)]
      congr 1
      omega
    · rw [if_neg hq]

/-- C8 witness: the round trip applied at `x = 1`, `I = 0x300`. -/
theorem store_load_regs_roundtrip_witness :
    (1 : Nat) ≤ 0xF ∧ roundtripProbe.i + 1 < MEMORY_SIZE ∧
    ∃ s1 s2, execute roundtripProbe (.StoreRegs 1) 0 = some (.ok s1) ∧
      execute s1 (.LoadRegs 1) 0 = some (.ok s2) ∧
      s1.i = roundtripProbe.i ∧ s2.i = roundtripProbe.i ∧
      s2.regs = roundtripProbe.regs :=
  ⟨by decide, by decide,
    store_load_regs_roundtrip roundtripProbe 1 0 0 (by decide) (by decide)⟩

/-! ## C9 — the font region after initialization -/

/-- C9 counterexample: from a freshly loaded machine, executing
`SetI 0x050` and then `StoreBCD V0` (with `V0 = 0`) overwrites memory at
`0x050`: the first font byte changes from `0xF0` to `0`, so the font region
is not preserved by every executed instruction. -/
theorem font_region_overwritten_by_store_bcd :
    (newChip8 [] false).map (fun s0 =>
      (chainOkOpt (execute s0 (.SetI FONT_OFFSET) 0)
          (fun s1 => execute s1 (.StoreBCD 0) 0)).map
        (Except.map (fun s2 => (s2.memory FONT_OFFSET, s0.memory FONT_OFFSET))))
      = .ok (some (.ok (0, 0xF0))) ∧ (0 : Nat) ≠ 0xF0 := by
  refine ⟨by decide, by decide⟩

/-- C9 (amended): the font region `0x050..0x09F` holds the `FONT` table
after initialization, and it is preserved by every executed instruction
except the unguarded block stores FX33/FX55, which write
`memory[I..I+2]` / `memory[I..I+x]` and therefore can overwrite the font
exactly when that target range meets the font region: every address outside
the written range — in particular every font address when `I` points
elsewhere — is untouched. -/
theorem font_region_only_written_by_block_stores :
    (∀ rom debug s0, newChip8 rom debug = .ok s0 →
      ∀ a, FONT_OFFSET ≤ a → a < FONT_OFFSET + 80 →
        s0.memory a = FONT.getD (a - FONT_OFFSET) 0) ∧
    (∀ s op rnd s', writesMemoryB op = false →
      execute s op rnd = some (.ok s') → s'.memory = s.memory) ∧
    (∀ s x s', storeBCD s x = some s' →
      ∀ a, a < s.i ∨ s.i + 2 < a → s'.memory a = s.memory a) ∧
    (∀ s x s', storeRegs s x = some s' →
      ∀ a, a < s.i ∨ s.i + x < a → s'.memory a = s.memory a) := by
  refine ⟨?_, ?_, ?_, ?_⟩
  · intro rom debug s0 h0 a ha1 ha2
    rw [newChip8] at h0
    split at h0
    · exact absurd h0 (by simp)
    · injection h0 with h0
      subst h0
      show writeRange (writeRange (fun _ => 0) FONT_OFFSET FONT)
        PROGRAM_START rom a = _
      have hfl : FONT.length = 80 := rfl
      have ha3 : a < 0xA0 := by
        simp only [FONT_OFFSET] at ha2
        omega
      rw [writeRange, if_neg (by simp only [PROGRAM_START]; omega)]
      rw [writeRange, if_pos (by rw [hfl]; exact ⟨ha1, ha2⟩)]
  · intro s op rnd s' hw h
    cases op with
    | Clear =>
      simp only [execute, Option.some.injEq, Except.ok.injEq] at h
      subst h; rfl
    | Return =>
      rcases hgl : s.stack.getLast? with _ | v
      · simp [execute, stackPop, hgl] at h
      · simp only [execute, stackPop, hgl, Option.some.injEq,
          Except.ok.injEq] at h
        subst h; rfl
    | Jump addr =>
      simp only [execute, Option.some.injEq, Except.ok.injEq] at h
      subst h; rfl
    | Call addr =>
      by_cases hlen : STACK_SIZE ≤ s.stack.length
      · simp [execute, stackPush, hlen] at h
      · simp only [execute, stackPush, if_neg hlen, Option.some.injEq,
          Except.ok.injEq] at h
        subst h; rfl
    | SkipEqualVal x nn =>
      simp only [execute, Option.some.injEq, Except.ok.injEq] at h
      subst h; split <;> rfl
    | SkipNotEqualVal x nn =>
      simp only [execute, Option.some.injEq, Except.ok.injEq] at h
      subst h; split <;> rfl
    | SkipEqual x y =>
      simp only [execute, Option.some.injEq, Except.ok.injEq] at h
      subst h; split <;> rfl
    | SetVal x nn =>
      simp only [execute, Option.some.injEq, Except.ok.injEq] at h
      subst h; rfl
    | AddVal x nn =>
      simp only [execute, Option.some.injEq, Except.ok.injEq] at h
      subst h; rfl
    | Set x y =>
      simp only [execute, Option.some.injEq, Except.ok.injEq] at h
      subst h; rfl
    | Or x y =>
      simp only [execute, Option.some.injEq, Except.ok.injEq] at h
      subst h; rfl
    | And x y =>
      simp only [execute, Option.some.injEq, Except.ok.injEq] at h
      subst h; rfl
    | Xor x y =>
      simp only [execute, Option.some.injEq, Except.ok.injEq] at h
      subst h; rfl
    | Add x y =>
      simp only [execute, Option.some.injEq, Except.ok.injEq] at h
      subst h; rfl
    | SubY x y =>
      simp only [execute, Option.some.injEq, Except.ok.injEq] at h
      subst h; rfl
    | ShiftRight x =>
      simp only [execute, Option.some.injEq, Except.ok.injEq] at h
      subst h; rfl
    | SubX x y =>
      simp only [execute, Option.some.injEq, Except.ok.injEq] at h
      subst h; rfl
    | ShiftLeft x =>
      simp only [execute, Option.some.injEq, Except.ok.injEq] at h
      subst h; rfl
    | SkipNotEqual x y =>
      simp only [execute, Option.some.injEq, Except.ok.injEq] at h
      subst h; split <;> rfl
    | SetI addr =>
      simp only [execute, Option.some.injEq, Except.ok.injEq] at h
      subst h; rfl
    | JumpV0 nnn =>
      simp only [execute, Option.some.injEq, Except.ok.injEq] at h
      subst h; rfl
    | Random x nn =>
      simp only [execute, Option.some.injEq, Except.ok.injEq] at h
      subst h; rfl
    | Draw x y n =>
      rcases hd : drawRows s.memory s.i (s.regs x % DISPLAY_WIDTH)
          (s.regs y % DISPLAY_HEIGHT) 0 n (s.display, 0) with _ | st
      · simp [execute, displayDraw, hd] at h
      · simp only [execute, displayDraw, hd, Option.map_some',
          Option.some.injEq, Except.ok.injEq] at h
        subst h; rfl
    | SkipKey x =>
      by_cases hx : 0xF < x
      · simp [execute, hx] at h
      · rcases hio : s.ioDev with _ | io
        · simp only [execute, if_neg hx, hio, Option.some.injEq,
            Except.ok.injEq] at h
          subst h; rfl
        · simp only [execute, if_neg hx, hio, Option.some.injEq,
            Except.ok.injEq] at h
          subst h; split <;> rfl
    | SkipNotKey x =>
      by_cases hx : 0xF < x
      · simp [execute, hx] at h
      · rcases hio : s.ioDev with _ | io
        · simp only [execute, if_neg hx, hio, Option.some.injEq,
            Except.ok.injEq] at h
          subst h; rfl
        · simp only [execute, if_neg hx, hio, Option.some.injEq,
            Except.ok.injEq] at h
          subst h; split <;> rfl
    | GetDelay x =>
      simp only [execute, Option.some.injEq, Except.ok.injEq] at h
      subst h; rfl
    | WaitKey x =>
      rcases hio : s.ioDev with _ | io
      · simp only [execute, hio, Option.some.injEq, Except.ok.injEq] at h
        subst h; rfl
      · by_cases hkq : io.keyQueryResult = NO_KEY_PRESSED
        · simp only [execute, hio, if_pos hkq, Option.some.injEq,
            Except.ok.injEq] at h
          subst h; rfl
        · simp only [execute, hio, if_neg hkq, Option.some.injEq,
            Except.ok.injEq] at h
          subst h; rfl
    | SetDelay x =>
      simp only [execute, Option.some.injEq, Except.ok.injEq] at h
      subst h; rfl
    | SetSound x =>
      simp only [execute, Option.some.injEq, Except.ok.injEq] at h
      subst h; rfl
    | AddI x =>
      simp only [execute, Option.some.injEq, Except.ok.injEq] at h
      subst h; rfl
    | SetSprite x =>
      simp only [execute, Option.some.injEq, Except.ok.injEq] at h
      subst h; rfl
    | StoreBCD x => simp [writesMemoryB] at hw
    | StoreRegs x => simp [writesMemoryB] at hw
    | LoadRegs x =>
      rcases hlf : loadFold s.memory s.i s.regs (x + 1) with _ | r
      · simp [execute, loadRegs, hlf] at h
      · simp only [execute, loadRegs, hlf, Option.map_some',
          Option.some.injEq, Except.ok.injEq] at h
        subst h; rfl
  · intro s x s' h a ha
    rw [storeBCD, writeMem] at h
    split at h
    · rw [Option.some_bind, writeMem] at h
      split at h
      · rw [Option.some_bind, writeMem] at h
        split at h
        · simp only [Option.map_some', Option.some.injEq] at h
          subst h
          show (if a = s.i + 2 then _
            else if a = s.i + 1 then _
            else if a = s.i then _ else s.memory a) = s.memory a
          rw [if_neg (by omega), if_neg (by omega), if_neg (by omega)]
        · simp at h
      · simp at h
    · simp at h
  · intro s x s' h a ha
    have hiff := storeFold_isSome s.memory s.i s.regs (x + 1)
    rw [storeRegs] at h
    rcases hsf : storeFold s.memory s.i s.regs (x + 1) with _ | mm
    · rw [hsf] at h
      simp at h
    · rw [hsf] at hiff
      simp only [Option.isSome_some, true_iff] at hiff
      have hb : s.i + (x + 1) ≤ MEMORY_SIZE := by omega
      rw [storeFold_eq s.memory s.i s.regs (x + 1) hb] at h
      simp only [Option.map_some', Option.some.injEq] at h
      subst h
      show (if s.i ≤ a ∧ a < s.i + (x + 1) then _ else s.memory a)
        = s.memory a
      rw [if_neg (by omega)]

/-- C9 witness: the memory-preservation part applied to a concrete
instruction (`SetI 5` on the zero state). -/
theorem font_region_only_written_by_block_stores_witness :
    ({ zeroChip8 with i := 5 } : Chip8).memory = zeroChip8.memory :=
  font_region_only_written_by_block_stores.2.1 zeroChip8 (.SetI 5) 0
    { zeroChip8 with i := 5 } (by rfl) (by rfl)

/-! ## C5 — totality and exclusivity of decode -/

/-- C5 counterexample to the variant count: the instruction sum type has
exactly the 34 constructor classes indexed `0..33` by `ctorIdx` — there is
no 35th variant. -/
theorem no_thirtyfifth_variant : ¬ ∃ o : Opcode, ctorIdx o = 34 := by
  rintro ⟨o, ho⟩
  cases o <;> simp [ctorIdx] at ho

/-- C5 (amended): for every 16-bit instruction word, `decode` matches at
most one of its 34 arm patterns, succeeds exactly when one pattern matches,
and otherwise returns `InvalidOpcode` carrying the word; all 34 variant
classes (`ctorIdx` values `0..33`) are realized by some decoded word. -/
theorem decode_total_exclusive :
    (∀ w : Nat, matchCount w ≤ 1 ∧
      (isOkB (decode w) = true ↔ matchCount w = 1) ∧
      (decode w = .error (.InvalidOpcode w) ↔ matchCount w = 0)) ∧
    (∀ o : Opcode, ctorIdx o < 34) ∧
    armWitnessWords.map (fun v => (decode v).toOption.map ctorIdx)
      = (List.range 34).map some := by
  refine ⟨fun w => decodeFields_exclusive w (w / 4096 % 16) (w / 256 % 16)
    (w / 16 % 16) (w % 16) (w % 256) (w % 4096), ?_, ?_⟩
  · intro o
    cases o <;> simp [ctorIdx]
  · decide

/-! ## Sprite-row loop characterization -/
/-- What one pass of the inner pixel loop computes, against the framebuffer
it started from: starting at bit index `b` (screen column `vx + (7 - b)`,
still on screen), it processes `min (b+1) (64 - column)` pixels — stopping
either after bit 0 or at the right edge — XORs the corresponding sprite bits
into those cells, and raises the collision flag to 1 exactly when one of the
processed bits is 1 on a cell that already held 1. Every processed cell is
written once and read before any write to it, so all reads see the initial
framebuffer. -/
lemma drawRowGo_spec (byte vx vy byteIndex : Nat)
    (hvy : vy + byteIndex < DISPLAY_HEIGHT) :
    ∀ b disp vf, b ≤ 7 → vx + (7 - b) < DISPLAY_WIDTH →
      (∀ a, (drawRowGo byte vx vy byteIndex (disp, vf) b).1 a =
        rowPatch disp (vy + byteIndex) (vx + (7 - b))
          (min (b + 1) (DISPLAY_WIDTH - (vx + (7 - b)))) b byte a) ∧
      ((drawRowGo byte vx vy byteIndex (disp, vf) b).2 =
        if rowHit disp (vy + byteIndex) (vx + (7 - b))
            (min (b + 1) (DISPLAY_WIDTH - (vx + (7 - b)))) b byte
        then 1 else vf) := by
  simp only [DISPLAY_WIDTH, DISPLAY_HEIGHT] at hvy ⊢
  have hrow : (vy + byteIndex) % 32 = vy + byteIndex := Nat.mod_eq_of_lt hvy
  intro b
  induction b with
  | zero =>
    intro disp vf _ hu
    have hcol : (vx + (7 - 0)) % 64 = vx + (7 - 0) := Nat.mod_eq_of_lt hu
    have hcnt : min (0 + 1) (64 - (vx + (7 - 0))) = 1 := by omega
    simp only [hcnt]
    simp only [drawRowGo, DISPLAY_WIDTH, DISPLAY_HEIGHT, Nat.sub_zero]
      at hcol hu ⊢
    simp only [hcol, hrow]
    rw [ite_self]
    constructor
    · intro a
      simp only [rowPatch, DISPLAY_WIDTH, Nat.sub_zero]
      split_ifs <;> first | omega | simp_all | rfl
    · simp only [rowHit, DISPLAY_WIDTH, Nat.sub_zero]
      by_cases hc : byte / 2 ^ 0 % 2 = 1 ∧
          disp ((vy + byteIndex) * 64 + (vx + 7)) = 1
      · rw [if_pos hc, if_pos ⟨0, by omega, by simpa using hc.1,
          by simpa using hc.2⟩]
      · rw [if_neg hc, if_neg ?_]
        rintro ⟨t, ht, hb1, hb2⟩
        have ht0 : t = 0 := by omega
        subst ht0
        exact hc ⟨by simpa using hb1, by simpa using hb2⟩
  | succ k ih =>
    intro disp vf hb hu
    have hcol : (vx + (7 - (k + 1))) % 64 = vx + (7 - (k + 1)) :=
      Nat.mod_eq_of_lt hu
    simp only [drawRowGo, DISPLAY_WIDTH, DISPLAY_HEIGHT] at hcol hu ⊢
    simp only [hcol, hrow]
    by_cases hsx : vx + (7 - (k + 1)) = 64 - 1
    · -- right edge: this pixel is the last one of the row
      rw [if_pos hsx]
      have hcnt : min (k + 1 + 1) (64 - (vx + (7 - (k + 1)))) = 1 := by omega
      simp only [hcnt]
      constructor
      · intro a
        simp only [rowPatch, DISPLAY_WIDTH]
        split_ifs <;> first | omega | simp_all | rfl
      · simp only [rowHit, DISPLAY_WIDTH]
        by_cases hc : byte / 2 ^ (k + 1) % 2 = 1 ∧
            disp ((vy + byteIndex) * 64 + (vx + (7 - (k + 1)))) = 1
        · rw [if_pos hc, if_pos ⟨0, by omega, by simpa using hc.1,
            by simpa using hc.2⟩]
        · rw [if_neg hc, if_neg ?_]
          rintro ⟨t, ht, hb1, hb2⟩
          have ht0 : t = 0 := by omega
          subst ht0
          exact hc ⟨by simpa using hb1, by simpa using hb2⟩
    · -- interior pixel: recurse on the remaining bits
      rw [if_neg hsx]
      have hu' : vx + (7 - k) < 64 := by omega
      obtain ⟨ihd, ihv⟩ := ih
        (fun a =>
          if a = (vy + byteIndex) * 64 + (vx + (7 - (k + 1))) then
            disp ((vy + byteIndex) * 64 + (vx + (7 - (k + 1)))) ^^^
              byte / 2 ^ (k + 1) % 2
          else disp a)
        (if byte / 2 ^ (k + 1) % 2 = 1 ∧
            disp ((vy + byteIndex) * 64 + (vx + (7 - (k + 1)))) = 1
          then 1 else vf)
        (by omega) hu'
      have hhit : rowHit disp (vy + byteIndex) (vx + (7 - (k + 1)))
          (min (k + 1 + 1) (64 - (vx + (7 - (k + 1))))) (k + 1) byte ↔
          ((byte / 2 ^ (k + 1) % 2 = 1 ∧
            disp ((vy + byteIndex) * 64 + (vx + (7 - (k + 1)))) = 1) ∨
           rowHit (fun a =>
              if a = (vy + byteIndex) * 64 + (vx + (7 - (k + 1)))
              then disp ((vy + byteIndex) * 64 +
                  (vx + (7 - (k + 1)))) ^^^ byte / 2 ^ (k + 1) % 2
              else disp a)
            (vy + byteIndex) (vx + (7 - k))
            (min (k + 1) (64 - (vx + (7 - k)))) k byte) := by
        simp only [rowHit, DISPLAY_WIDTH]
        constructor
        · rintro ⟨t, ht, hb1, hb2⟩
          cases t with
          | zero =>
            exact Or.inl ⟨by simpa using hb1, by simpa using hb2⟩
          | succ u =>
            refine Or.inr ⟨u, by omega, ?_, ?_⟩
            · have hE : k - u = k + 1 - (u + 1) := by omega
              rw [hE]
              exact hb1
            · have haddr : (vy + byteIndex) * 64 + (vx + (7 - k)) + u =
                  (vy + byteIndex) * 64 + (vx + (7 - (k + 1))) + (u + 1) := by
                omega
              rw [haddr, if_neg (by omega)]
              exact hb2
        · rintro (⟨hb1, hb2⟩ | ⟨t, ht, hb1, hb2⟩)
          · exact ⟨0, by omega, by simpa using hb1, by simpa using hb2⟩
          · refine ⟨t + 1, by omega, ?_, ?_⟩
            · have hE : k + 1 - (t + 1) = k - t := by omega
              rw [hE]
              exact hb1
            · have haddr : (vy + byteIndex) * 64 +
                  (vx + (7 - (k + 1))) + (t + 1) =
                  (vy + byteIndex) * 64 + (vx + (7 - k)) + t := by omega
              rw [haddr]
              rw [if_neg (by omega)] at hb2
              exact hb2
      constructor
      · intro a
        rw [ihd a]
        simp only [rowPatch, DISPLAY_WIDTH]
        by_cases ha0 : a = (vy + byteIndex) * 64 + (vx + (7 - (k + 1)))
        · subst ha0
          rw [if_neg (by omega), if_pos rfl, if_pos (show
            (vy + byteIndex) * 64 + (vx + (7 - (k + 1))) ≤
              (vy + byteIndex) * 64 + (vx + (7 - (k + 1))) ∧
            (vy + byteIndex) * 64 + (vx + (7 - (k + 1))) <
              (vy + byteIndex) * 64 + (vx + (7 - (k + 1))) +
                min (k + 1 + 1) (64 - (vx + (7 - (k + 1)))) from
            ⟨by omega, by omega⟩)]
          simp
        · by_cases hain : (vy + byteIndex) * 64 + (vx + (7 - k)) ≤ a ∧
              a < (vy + byteIndex) * 64 + (vx + (7 - k)) +
                min (k + 1) (64 - (vx + (7 - k)))
          · rw [if_pos hain, if_neg ha0, if_pos (show
              (vy + byteIndex) * 64 + (vx + (7 - (k + 1))) ≤ a ∧
              a < (vy + byteIndex) * 64 + (vx + (7 - (k + 1))) +
                min (k + 1 + 1) (64 - (vx + (7 - (k + 1)))) from
              ⟨by omega, by omega⟩)]
            have hE : k - (a - ((vy + byteIndex) * 64 + (vx + (7 - k)))) =
                k + 1 - (a - ((vy + byteIndex) * 64 +
                  (vx + (7 - (k + 1))))) := by omega
            rw [hE]
          · rw [if_neg hain, if_neg ha0, if_neg (show
              ¬((vy + byteIndex) * 64 + (vx + (7 - (k + 1))) ≤ a ∧
                a < (vy + byteIndex) * 64 + (vx + (7 - (k + 1))) +
                  min (k + 1 + 1) (64 - (vx + (7 - (k + 1))))) from
              by omega)]
      · rw [ihv]
        rw [if_congr hhit rfl rfl]
        split_ifs with hA hB <;> tauto

/-- `drawRowGo_spec` at the loop entry `bitIndex = 7`: one full sprite row,
clipped at the right edge. -/
lemma drawRow7_spec (byte vx vy byteIndex : Nat) (disp : Display) (vf : Nat)
    (hvy : vy + byteIndex < 32) (hvx : vx < 64) :
    (∀ a, (drawRowGo byte vx vy byteIndex (disp, vf) 7).1 a =
      if (vy + byteIndex) * 64 + vx ≤ a ∧
          a < (vy + byteIndex) * 64 + vx + min 8 (64 - vx) then
        disp a ^^^ byte / 2 ^ (7 - (a - ((vy + byteIndex) * 64 + vx))) % 2
      else disp a) ∧
    ((drawRowGo byte vx vy byteIndex (disp, vf) 7).2 =
      if ∃ t, t < min 8 (64 - vx) ∧ byte / 2 ^ (7 - t) % 2 = 1 ∧
          disp ((vy + byteIndex) * 64 + vx + t) = 1 then 1 else vf) := by
  obtain ⟨hd, hv⟩ := drawRowGo_spec byte vx vy byteIndex
    (by simp only [DISPLAY_HEIGHT]; omega) 7 disp vf (by omega)
    (by simp only [DISPLAY_WIDTH]; omega)
  constructor
  · intro a
    rw [hd a]
    simp [rowPatch, DISPLAY_WIDTH]
  · rw [hv]
    simp [rowHit, DISPLAY_WIDTH]

/-- What the row loop of `Chip8::display` computes: with `count` rows left
and the current row still on screen, it draws
`R = min count (32 - startRow)` rows (clipping at the bottom edge), each
clipped at the right edge; the final `VF` value is 1 exactly when some drawn
sprite bit lands on a cell of the initial framebuffer that holds 1. -/
lemma drawRows_spec (mem : Mem) (i vx vy : Nat) (hvx : vx < DISPLAY_WIDTH) :
    ∀ count byteIndex disp vf,
      vy + byteIndex < DISPLAY_HEIGHT →
      i + byteIndex + min count (DISPLAY_HEIGHT - (vy + byteIndex)) ≤
        MEMORY_SIZE →
      drawRows mem i vx vy byteIndex count (disp, vf) =
        some (fun a => drawPatch mem i disp vx vy byteIndex
            (min count (DISPLAY_HEIGHT - (vy + byteIndex))) a,
          if drawHit mem i disp vx vy byteIndex
              (min count (DISPLAY_HEIGHT - (vy + byteIndex)))
          then 1 else vf) := by
  simp only [DISPLAY_WIDTH, DISPLAY_HEIGHT, MEMORY_SIZE] at hvx ⊢
  intro count
  induction count with
  | zero =>
    intro byteIndex disp vf hy hb
    simp only [drawRows, Nat.zero_min]
    refine congrArg some (Prod.ext ?_ ?_)
    · funext a
      show disp a = drawPatch mem i disp vx vy byteIndex 0 a
      simp only [drawPatch, DISPLAY_WIDTH]
      rw [if_neg (by omega)]
    · show vf = if drawHit mem i disp vx vy byteIndex 0 then 1 else vf
      rw [if_neg ?_]
      rintro ⟨j, hj, _⟩
      omega
  | succ count ihc =>
    intro byteIndex disp vf hy hb
    simp only [drawRows, DISPLAY_HEIGHT, DISPLAY_WIDTH]
    rw [show readMem mem (i + byteIndex) = some (mem (i + byteIndex)) from by
      rw [readMem, if_pos (show i + byteIndex < MEMORY_SIZE from by
        simp only [MEMORY_SIZE]; omega)]]
    rw [Option.some_bind]
    obtain ⟨hd7, hv7⟩ := drawRow7_spec (mem (i + byteIndex)) vx vy byteIndex
      disp vf (by omega) (by omega)
    by_cases hsy : vy + byteIndex = 32 - 1
    · rw [if_pos hsy]
      have hR : min (count + 1) (32 - (vy + byteIndex)) = 1 := by omega
      simp only [hR]
      refine congrArg some (Prod.ext ?_ ?_)
      · funext a
        rw [hd7 a]
        simp only [drawPatch, DISPLAY_WIDTH, spriteBit]
        split_ifs with h1 h2
        · have e1 : i + (a / 64 - vy) = i + byteIndex := by omega
          have e2 : 7 - (a % 64 - vx) =
              7 - (a - ((vy + byteIndex) * 64 + vx)) := by omega
          rw [e1, e2]
        · exact absurd (show vy + byteIndex ≤ a / 64 ∧
            a / 64 < vy + byteIndex + 1 ∧ vx ≤ a % 64 ∧
            a % 64 < vx + min 8 (64 - vx) from
            ⟨by omega, by omega, by omega, by omega⟩) h2
        · omega
        · rfl
      · have hiffB : (∃ t, t < min 8 (64 - vx) ∧
            mem (i + byteIndex) / 2 ^ (7 - t) % 2 = 1 ∧
            disp ((vy + byteIndex) * 64 + vx + t) = 1) ↔
            drawHit mem i disp vx vy byteIndex 1 := by
          simp only [drawHit, DISPLAY_WIDTH, spriteBit]
          constructor
          · rintro ⟨t, ht, hb1, hb2⟩
            exact ⟨0, by omega, t, ht, by simpa using hb1,
              by simpa [Nat.add_assoc] using hb2⟩
          · rintro ⟨j, hj, t, ht, hb1, hb2⟩
            have hj0 : j = 0 := by omega
            subst hj0
            exact ⟨t, ht, by simpa using hb1,
              by simpa [Nat.add_assoc] using hb2⟩
        rw [hv7, if_congr hiffB rfl rfl]
    · rw [if_neg hsy]
      have hy' : vy + (byteIndex + 1) < 32 := by omega
      have hR : min (count + 1) (32 - (vy + byteIndex)) =
          min count (32 - (vy + (byteIndex + 1))) + 1 := by omega
      simp only [hR]
      have hIH := ihc (byteIndex + 1)
        ((drawRowGo (mem (i + byteIndex)) vx vy byteIndex (disp, vf) 7).1)
        ((drawRowGo (mem (i + byteIndex)) vx vy byteIndex (disp, vf) 7).2)
        hy' (by omega)
      rw [show drawRowGo (mem (i + byteIndex)) vx vy byteIndex (disp, vf) 7 =
        ((drawRowGo (mem (i + byteIndex)) vx vy byteIndex (disp, vf) 7).1,
         (drawRowGo (mem (i + byteIndex)) vx vy byteIndex (disp, vf) 7).2)
        from rfl, hIH]
      have hiff1 : drawHit mem i
          ((drawRowGo (mem (i + byteIndex)) vx vy byteIndex (disp, vf) 7).1)
          vx vy (byteIndex + 1)
          (min count (32 - (vy + (byteIndex + 1)))) ↔
          drawHit mem i disp vx vy (byteIndex + 1)
          (min count (32 - (vy + (byteIndex + 1)))) := by
        simp only [drawHit, DISPLAY_WIDTH]
        constructor
        · rintro ⟨j, hj, t, ht, hb1, hb2⟩
          refine ⟨j, hj, t, ht, hb1, ?_⟩
          rw [hd7 _] at hb2
          rwa [if_neg (by omega)] at hb2
        · rintro ⟨j, hj, t, ht, hb1, hb2⟩
          refine ⟨j, hj, t, ht, hb1, ?_⟩
          rw [hd7 _]
          rwa [if_neg (by omega)]
      have hiff2 : drawHit mem i disp vx vy byteIndex
          (min count (32 - (vy + (byteIndex + 1))) + 1) ↔
          ((∃ t, t < min 8 (64 - vx) ∧
            mem (i + byteIndex) / 2 ^ (7 - t) % 2 = 1 ∧
            disp ((vy + byteIndex) * 64 + vx + t) = 1) ∨
           drawHit mem i disp vx vy (byteIndex + 1)
            (min count (32 - (vy + (byteIndex + 1))))) := by
        simp only [drawHit, DISPLAY_WIDTH, spriteBit]
        constructor
        · rintro ⟨j, hj, t, ht, hb1, hb2⟩
          cases j with
          | zero =>
            exact Or.inl ⟨t, ht, by simpa [spriteBit] using hb1,
              by simpa [Nat.add_assoc] using hb2⟩
          | succ j' =>
            refine Or.inr ⟨j', by omega, t, ht, ?_, ?_⟩
            · rw [show i + (byteIndex + 1) + j' = i + byteIndex + (j' + 1)
                from by omega]
              exact hb1
            · rw [show vy + (byteIndex + 1) + j' = vy + byteIndex + (j' + 1)
                from by omega]
              exact hb2
        · rintro (⟨t, ht, hb1, hb2⟩ | ⟨j, hj, t, ht, hb1, hb2⟩)
          · exact ⟨0, by omega, t, ht, by simpa [spriteBit] using hb1,
              by simpa [Nat.add_assoc] using hb2⟩
          · refine ⟨j + 1, by omega, t, ht, ?_, ?_⟩
            · rw [show i + byteIndex + (j + 1) = i + (byteIndex + 1) + j
                from by omega]
              exact hb1
            · rw [show vy + byteIndex + (j + 1) = vy + (byteIndex + 1) + j
                from by omega]
              exact hb2
      refine congrArg some (Prod.ext ?_ ?_)
      · show (fun a => drawPatch mem i
            ((drawRowGo (mem (i + byteIndex)) vx vy byteIndex (disp, vf) 7).1)
            vx vy (byteIndex + 1)
            (min count (32 - (vy + (byteIndex + 1)))) a) =
          (fun a => drawPatch mem i disp vx vy byteIndex
            (min count (32 - (vy + (byteIndex + 1))) + 1) a)
        funext a
        simp only [drawPatch, DISPLAY_WIDTH]
        rw [hd7 a]
        clear hd7 hv7 hIH hiff1 hiff2 ihc
        split_ifs with h1 h2 h3 <;>
          first
            | rfl
            | (exfalso; omega)
            | (simp only [spriteBit]
               rw [show i + (a / 64 - vy) = i + byteIndex from by omega,
                 show 7 - (a % 64 - vx) =
                   7 - (a - ((vy + byteIndex) * 64 + vx)) from by omega])
      · show (if drawHit mem i
            ((drawRowGo (mem (i + byteIndex)) vx vy byteIndex (disp, vf) 7).1)
            vx vy (byteIndex + 1)
            (min count (32 - (vy + (byteIndex + 1)))) then 1
          else (drawRowGo (mem (i + byteIndex)) vx vy byteIndex
            (disp, vf) 7).2) =
          (if drawHit mem i disp vx vy byteIndex
            (min count (32 - (vy + (byteIndex + 1))) + 1) then 1 else vf)
        rw [hv7]
        by_cases hC : drawHit mem i disp vx vy byteIndex
          (min count (32 - (vy + (byteIndex + 1))) + 1)
        · rw [if_pos hC]
          rcases hiff2.mp hC with hB | hA2
          · by_cases hA : drawHit mem i
              ((drawRowGo (mem (i + byteIndex)) vx vy byteIndex
                (disp, vf) 7).1) vx vy (byteIndex + 1)
              (min count (32 - (vy + (byteIndex + 1))))
            · rw [if_pos hA]
            · rw [if_neg hA, if_pos hB]
          · rw [if_pos (hiff1.mpr hA2)]
        · rw [if_neg hC,
            if_neg (fun ha => hC (hiff2.mpr (Or.inr (hiff1.mp ha)))),
            if_neg (fun hb2 => hC (hiff2.mpr (Or.inl hb2)))]

/-! ## C7 — sprite draw and the collision flag (`Chip8::display`,
`src/emulator.rs:502-528`) -/

/-- The executor arm for DXYN, characterized: the draw always succeeds once
the sprite bytes it reads are in bounds, the framebuffer becomes `drawPatch`
of the old one (the sprite window clipped at the right and bottom screen
edges), and `VF` is rewritten — its old value discarded — to 1 exactly when
a drawn sprite bit lands on an already-set pixel (`drawHit`), else 0. -/
lemma execute_draw_spec (s : Chip8) (x y n rnd : Nat)
    (hn : s.i + min n (DISPLAY_HEIGHT - s.regs y % DISPLAY_HEIGHT)
        ≤ MEMORY_SIZE) :
    execute s (.Draw x y n) rnd = some (.ok { s with
      display := fun a => drawPatch s.memory s.i s.display
          (s.regs x % DISPLAY_WIDTH) (s.regs y % DISPLAY_HEIGHT) 0
          (min n (DISPLAY_HEIGHT - s.regs y % DISPLAY_HEIGHT)) a,
      regs := fun q => if q = 0xF then
          (if drawHit s.memory s.i s.display (s.regs x % DISPLAY_WIDTH)
              (s.regs y % DISPLAY_HEIGHT) 0
              (min n (DISPLAY_HEIGHT - s.regs y % DISPLAY_HEIGHT))
           then 1 else 0)
        else s.regs q }) := by
  have hy0 : s.regs y % DISPLAY_HEIGHT + 0 < DISPLAY_HEIGHT := by
    simp only [Nat.add_zero]
    exact Nat.mod_lt _ (by decide)
  have hb0 : s.i + 0 + min n (DISPLAY_HEIGHT -
      (s.regs y % DISPLAY_HEIGHT + 0)) ≤ MEMORY_SIZE := by
    simpa using hn
  have hspec := drawRows_spec s.memory s.i (s.regs x % DISPLAY_WIDTH)
    (s.regs y % DISPLAY_HEIGHT)
    (Nat.mod_lt _ (show 0 < DISPLAY_WIDTH by decide)) n 0 s.display 0 hy0 hb0
  simp only [Nat.add_zero] at hspec
  show (displayDraw s (s.regs x % DISPLAY_WIDTH)
      (s.regs y % DISPLAY_HEIGHT) n).map Except.ok = _
  rw [displayDraw, hspec]
  rfl

/-- C7 (amended): executing DXYN succeeds whenever the sprite rows it reads
are in bounds; the old `VF` value is discarded and the final `VF` is 1
exactly when some drawn sprite bit lands on an already-set pixel, the drawn
window being clipped at the right and bottom screen edges.  Drawing onto an
all-zero framebuffer leaves `VF = 0`, and drawing the same sprite twice at
the same position leaves `VF = 1` after the second draw provided at least
one set sprite bit survives the clipping — for a nonzero sprite whose set
bits are all clipped away both draws leave `VF = 0`, contrary to the
claim's unconditional double-draw property. -/
theorem sprite_draw_collision_flag (s : Chip8) (x y n rnd : Nat)
    (hn : s.i + min n (DISPLAY_HEIGHT - s.regs y % DISPLAY_HEIGHT)
        ≤ MEMORY_SIZE) :
    execute s (.Draw x y n) rnd = some (.ok { s with
      display := fun a => drawPatch s.memory s.i s.display
          (s.regs x % DISPLAY_WIDTH) (s.regs y % DISPLAY_HEIGHT) 0
          (min n (DISPLAY_HEIGHT - s.regs y % DISPLAY_HEIGHT)) a,
      regs := fun q => if q = 0xF then
          (if drawHit s.memory s.i s.display (s.regs x % DISPLAY_WIDTH)
              (s.regs y % DISPLAY_HEIGHT) 0
              (min n (DISPLAY_HEIGHT - s.regs y % DISPLAY_HEIGHT))
           then 1 else 0)
        else s.regs q }) ∧
    ((∀ a, s.display a = 0) →
      ∀ s3, execute s (.Draw x y n) rnd = some (.ok s3) →
        s3.regs 0xF = 0) ∧
    ((∀ a, s.display a = 0) → x ≠ 0xF → y ≠ 0xF →
      (∃ j, j < min n (DISPLAY_HEIGHT - s.regs y % DISPLAY_HEIGHT) ∧
        ∃ t, t < min 8 (DISPLAY_WIDTH - s.regs x % DISPLAY_WIDTH) ∧
          spriteBit (s.memory (s.i + j)) t = 1) →
      ∀ s1 s2, execute s (.Draw x y n) rnd = some (.ok s1) →
        execute s1 (.Draw x y n) rnd = some (.ok s2) →
        s2.regs 0xF = 1) := by
  have h1 := execute_draw_spec s x y n rnd hn
  refine ⟨h1, ?_, ?_⟩
  · intro hz s3 hs3
    rw [h1] at hs3
    simp only [Option.some.injEq, Except.ok.injEq] at hs3
    subst hs3
    show (if drawHit s.memory s.i s.display (s.regs x % DISPLAY_WIDTH)
        (s.regs y % DISPLAY_HEIGHT) 0
        (min n (DISPLAY_HEIGHT - s.regs y % DISPLAY_HEIGHT))
      then 1 else 0) = 0
    rw [if_neg]
    rintro ⟨j, hj, t, ht, hb, hd⟩
    rw [hz] at hd
    exact Nat.zero_ne_one hd
  · rintro hz hx hy ⟨j, hj, t, ht, hbit⟩ s1 s2 hs1 hs2
    rw [h1] at hs1
    simp only [Option.some.injEq, Except.ok.injEq] at hs1
    have hrx : s1.regs x = s.regs x := by rw [← hs1]; exact if_neg hx
    have hry : s1.regs y = s.regs y := by rw [← hs1]; exact if_neg hy
    have hsm : s1.memory = s.memory := by rw [← hs1]
    have hsi : s1.i = s.i := by rw [← hs1]
    have hsd : s1.display = fun a => drawPatch s.memory s.i s.display
        (s.regs x % DISPLAY_WIDTH) (s.regs y % DISPLAY_HEIGHT) 0
        (min n (DISPLAY_HEIGHT - s.regs y % DISPLAY_HEIGHT)) a := by
      rw [← hs1]
    have hn1 : s1.i + min n (DISPLAY_HEIGHT - s1.regs y % DISPLAY_HEIGHT)
        ≤ MEMORY_SIZE := by
      rw [hsi, hry]; exact hn
    have h2 := execute_draw_spec s1 x y n rnd hn1
    rw [h2] at hs2
    simp only [Option.some.injEq, Except.ok.injEq] at hs2
    have hvy : s.regs y % DISPLAY_HEIGHT < DISPLAY_HEIGHT :=
      Nat.mod_lt _ (by decide)
    have hvx : s.regs x % DISPLAY_WIDTH < DISPLAY_WIDTH :=
      Nat.mod_lt _ (by decide)
    have hRle : min n (DISPLAY_HEIGHT - s.regs y % DISPLAY_HEIGHT)
        ≤ DISPLAY_HEIGHT - s.regs y % DISPLAY_HEIGHT := Nat.min_le_right _ _
    have htlt : t < DISPLAY_WIDTH - s.regs x % DISPLAY_WIDTH :=
      lt_of_lt_of_le ht (Nat.min_le_right _ _)
    have hhit : drawHit s1.memory s1.i s1.display
        (s1.regs x % DISPLAY_WIDTH) (s1.regs y % DISPLAY_HEIGHT) 0
        (min n (DISPLAY_HEIGHT - s1.regs y % DISPLAY_HEIGHT)) := by
      rw [hsm, hsi, hrx, hry, hsd]
      refine ⟨j, hj, t, ht, by simpa using hbit, ?_⟩
      show drawPatch s.memory s.i s.display
          (s.regs x % DISPLAY_WIDTH) (s.regs y % DISPLAY_HEIGHT) 0
          (min n (DISPLAY_HEIGHT - s.regs y % DISPLAY_HEIGHT))
          ((s.regs y % DISPLAY_HEIGHT + 0 + j) * DISPLAY_WIDTH +
            (s.regs x % DISPLAY_WIDTH + t)) = 1
      simp only [drawPatch, DISPLAY_WIDTH, DISPLAY_HEIGHT]
      have h1b : s.regs y % 32 < 32 := hvy
      have h2b : s.regs x % 64 < 64 := hvx
      have h3b : min n (32 - s.regs y % 32) ≤ 32 - s.regs y % 32 := hRle
      have h4b : t < 64 - s.regs x % 64 := htlt
      have h5b : j < min n (32 - s.regs y % 32) := hj
      rw [if_pos (by refine ⟨by omega, by omega, by omega, by omega⟩)]
      rw [hz, Nat.zero_xor]
      rw [show ((s.regs y % 32 + 0 + j) * 64 +
            (s.regs x % 64 + t)) / 64 - s.regs y % 32 = j from by omega,
        show ((s.regs y % 32 + 0 + j) * 64 +
            (s.regs x % 64 + t)) % 64 - s.regs x % 64 = t from by omega]
      exact hbit
    rw [← hs2]
    show (if drawHit s1.memory s1.i s1.display
        (s1.regs x % DISPLAY_WIDTH) (s1.regs y % DISPLAY_HEIGHT) 0
        (min n (DISPLAY_HEIGHT - s1.regs y % DISPLAY_HEIGHT))
      then 1 else 0) = 1
    rw [if_pos hhit]

/-- C7 (counterexample to the claim as stated): drawing the nonzero sprite
`0x01` twice at the same position `(63, 0)` leaves `VF = 0` after the
second draw, not 1 — the edge clipping discards the sprite's only set bit,
so neither draw turns on any pixel and no collision can occur. -/
theorem sprite_draw_double_collision_missed :
    c7state.memory c7state.i = 1 ∧
    ((chainOkOpt (execute c7state (.Draw 0 1 1) 0)
        (fun s1 => execute s1 (.Draw 0 1 1) 0)).bind
      (fun e => exceptVF e)) = some 0 ∧ (0 : Nat) ≠ 1 := by
  refine ⟨rfl, ?_, by decide⟩
  decide

/-- C7, witnessed at a concrete input: the amended collision-flag theorem
instantiated on the all-zero machine, drawing one sprite row through
`V0 = 0`, `V1 = 0`. -/
theorem sprite_draw_collision_flag_witness :
    zeroChip8.i + min 1 (DISPLAY_HEIGHT - zeroChip8.regs 1 % DISPLAY_HEIGHT)
        ≤ MEMORY_SIZE ∧
    (execute zeroChip8 (.Draw 0 1 1) 0 = some (.ok { zeroChip8 with
      display := fun a => drawPatch zeroChip8.memory zeroChip8.i
          zeroChip8.display (zeroChip8.regs 0 % DISPLAY_WIDTH)
          (zeroChip8.regs 1 % DISPLAY_HEIGHT) 0
          (min 1 (DISPLAY_HEIGHT - zeroChip8.regs 1 % DISPLAY_HEIGHT)) a,
      regs := fun q => if q = 0xF then
          (if drawHit zeroChip8.memory zeroChip8.i zeroChip8.display
              (zeroChip8.regs 0 % DISPLAY_WIDTH)
              (zeroChip8.regs 1 % DISPLAY_HEIGHT) 0
              (min 1 (DISPLAY_HEIGHT - zeroChip8.regs 1 % DISPLAY_HEIGHT))
           then 1 else 0)
        else zeroChip8.regs q }) ∧
    ((∀ a, zeroChip8.display a = 0) →
      ∀ s3, execute zeroChip8 (.Draw 0 1 1) 0 = some (.ok s3) →
        s3.regs 0xF = 0) ∧
    ((∀ a, zeroChip8.display a = 0) → (0 : Nat) ≠ 0xF → (1 : Nat) ≠ 0xF →
      (∃ j, j < min 1 (DISPLAY_HEIGHT - zeroChip8.regs 1 % DISPLAY_HEIGHT) ∧
        ∃ t, t < min 8 (DISPLAY_WIDTH - zeroChip8.regs 0 % DISPLAY_WIDTH) ∧
          spriteBit (zeroChip8.memory (zeroChip8.i + j)) t = 1) →
      ∀ s1 s2, execute zeroChip8 (.Draw 0 1 1) 0 = some (.ok s1) →
        execute s1 (.Draw 0 1 1) 0 = some (.ok s2) →
        s2.regs 0xF = 1)) :=
  ⟨by decide, sprite_draw_collision_flag zeroChip8 0 1 1 0 (by decide)⟩

/-- C3, witnessed at a concrete input: resetting the mid-run machine
restores every component to its post-load value except the memory, the
call stack (left at `[0x300, 0x234]`, not emptied) and the I/O handle. -/
theorem reset_restores_all_but_stack_witness :
    reset c3probe = { c3init with memory := c3probe.memory,
                                  stack := c3probe.stack,
                                  ioDev := c3probe.ioDev } :=
  reset_restores_all_but_stack [] false c3init c3probe rfl rfl

end Chip8Emu
